import Mathlib

/-!
Completion ledger and streak engine of `habits`.

A shallow embedding of `backend/models/habit.go` (with the schema of
`backend/main.go`) and the properties of its completion / streak logic.

Modelling decisions:

* The SQLite database is a value `DB` holding the three tables as lists of rows, in
  insertion order. Every operation is a function from a database (and the arguments
  of the Go function) to the error it returns together with the database it leaves
  behind; no statement of the source runs inside a transaction, so the database left
  behind is reported also when an error is returned.
* A calendar day is an `Int` (a day number). `DATE('now')`, read by the SQL text, is
  the explicit argument `today`; `DATE(completed_at)` of a stored row is the day it
  was inserted on, and `DATE(d, '-k days')` is `d - k`.
* The counters are `Int`s without the 64-bit bound of the `INTEGER` columns and of the
  Go `int`s they are read into. The model computes what the code computes as long as
  the counters are values `c` with `-2^63 < c` and `c + 1 < 2^63`: outside, the Go
  subtraction wraps and SQLite turns the incremented column into a `REAL`, which `Scan`
  refuses. A history of fewer than `2^63` calls from counters 0 stays inside; theorems
  about an arbitrary state assume `Counter` of the counters they read.
* Storage never fails in the operations themselves, so the only error they can return
  is `sql.ErrNoRows`, produced by `Scan` on an empty result; a failing statement is
  modelled by the variants of section "Storage failures", which take the number of
  the statement that fails.
* The connection is opened with `sql.Open("sqlite3", dbPath)` and no statement turns
  `foreign_keys` on, so SQLite does not enforce the `FOREIGN KEY` clauses of the
  schema: `INSERT INTO habit_completions` is not checked against `habits`.
* The `id` column of `habit_completions` and `habit_streaks`, and the time stamps of
  `habits`, are read by no statement modelled here and are left out.
-/

namespace Habits

/-! ## Data model -/

/-- A row of table `habits` (`Habit` without its computed fields and time stamps). -/
structure Habit where
  ID : Int
  Name : String
  Description : String
  Frequency : String
  TargetCount : Int
  deriving DecidableEq, Repr

/-- A row of table `habit_completions`; `CompletedAt` is `DATE(completed_at)`. -/
structure HabitCompletion where
  HabitID : Int
  CompletedAt : Int
  deriving DecidableEq, Repr

/-- A row of table `habit_streaks`; `LastCompletionDate` is `NULL` until the first
completion. -/
structure HabitStreak where
  HabitID : Int
  CurrentStreak : Int
  LongestStreak : Int
  LastCompletionDate : Option Int
  deriving DecidableEq, Repr

/-- The database: the three tables of `initDatabase`, and the `sqlite_sequence` entry
of `habits` (the largest `id` ever handed out by `AUTOINCREMENT`). -/
structure DB where
  habits : List Habit
  habit_completions : List HabitCompletion
  habit_streaks : List HabitStreak
  habits_seq : Int
  deriving DecidableEq, Repr

/-- The errors a call can return when storage itself does not fail. -/
inductive Error where
  | ErrNoRows
  deriving DecidableEq, Repr

/-! ## The recomputation query of `UpdateHabitStreakOnUncomplete` -/

/-- CTE `consecutive_days`: the dates of the habit's completions in ascending order,
each with `ROW_NUMBER() OVER (ORDER BY DATE(completed_at))`, which counts from 1. -/
def consecutive_days (dates : List Int) : List (Int × Int) :=
  (dates.insertionSort (· ≤ ·)).enum.map fun p => (p.2, (p.1 : Int) + 1)

/-- CTE `streaks`: `(completion_date, streak_start)` with
`streak_start = DATE(completion_date, '-' || (row_num - 1) || ' days')`. -/
def streaks (dates : List Int) : List (Int × Int) :=
  (consecutive_days dates).map fun r => (r.1, r.1 - (r.2 - 1))

/-- CTE `streak_lengths`: `GROUP BY streak_start` with `COUNT(*)`: one row
`(streak_start, length)` for each distinct `streak_start`. -/
def streak_lengths (dates : List Int) : List (Int × Nat) :=
  ((streaks dates).map Prod.snd).dedup.map fun k =>
    (k, ((streaks dates).filter fun r => r.2 = k).length)

/-- The final `SELECT COALESCE(MAX(length), 0) FROM streak_lengths`: the largest
count, and 0 when there is no row. -/
def max_streak (dates : List Int) : Nat :=
  ((streak_lengths dates).map Prod.snd).foldr max 0

/-! ## Queries -/

/-- The dates `DATE(completed_at)` of the rows of `habit_completions` with the given
`habit_id`, in table order. -/
def completionDates (db : DB) (habitID : Int) : List Int :=
  (db.habit_completions.filter fun c => c.HabitID = habitID).map fun c => c.CompletedAt

/-- The row `QueryRow("SELECT current_streak, longest_streak FROM habit_streaks WHERE
habit_id = ?")` scans: the first row of the habit, if there is one. -/
def selectStreak (db : DB) (habitID : Int) : Option HabitStreak :=
  db.habit_streaks.find? fun s => s.HabitID = habitID

/-- Function `IsHabitCompletedToday`: `SELECT COUNT(*) ... WHERE habit_id = ? AND
DATE(completed_at) = DATE('now')`, and `count > 0`. -/
def IsHabitCompletedToday (db : DB) (habitID today : Int) : Bool :=
  let count := (db.habit_completions.filter fun c =>
    c.HabitID = habitID ∧ c.CompletedAt = today).length
  decide (count > 0)

/-! ## Streak updates -/

/-- Function `UpdateHabitStreak`: one `UPDATE` of every row of the habit; the right-hand sides
read the row as it was before the statement. -/
def UpdateHabitStreak (db : DB) (habitID today : Int) : Option Error × DB :=
  (none, { db with habit_streaks := db.habit_streaks.map fun s =>
    if s.HabitID = habitID then
      { s with
        CurrentStreak := s.CurrentStreak + 1
        LongestStreak :=
          if s.CurrentStreak + 1 > s.LongestStreak then s.CurrentStreak + 1
          else s.LongestStreak
        LastCompletionDate := some today }
    else s })

/-- The statement `UPDATE habit_streaks SET current_streak = ? WHERE habit_id = ?`. -/
def setCurrentStreak (db : DB) (habitID v : Int) : DB :=
  { db with habit_streaks := db.habit_streaks.map fun s =>
    if s.HabitID = habitID then { s with CurrentStreak := v } else s }

/-- The statement `UPDATE habit_streaks SET longest_streak = ? WHERE habit_id = ?`. -/
def setLongestStreak (db : DB) (habitID v : Int) : DB :=
  { db with habit_streaks := db.habit_streaks.map fun s =>
    if s.HabitID = habitID then { s with LongestStreak := v } else s }

/-- Function `UpdateHabitStreakOnUncomplete`: reads the habit's counters, lowers
`current_streak` by one (not below 0) and, when the counters were equal and positive,
runs the recomputation query and stores its result if it differs from
`longest_streak`. The subtraction is that of the Go `int` for the counters of the data
model (`Counter`); at `-2^63` the Go subtraction wraps, and a counter that is no 64-bit
integer makes `Scan` fail, which is not modelled. -/
def UpdateHabitStreakOnUncomplete (db : DB) (habitID : Int) : Option Error × DB :=
  match selectStreak db habitID with
  | none => (some Error.ErrNoRows, db)
  | some row =>
    let currentStreak := row.CurrentStreak
    let longestStreak := row.LongestStreak
    let newCurrentStreak := if currentStreak - 1 < 0 then 0 else currentStreak - 1
    let db1 := setCurrentStreak db habitID newCurrentStreak
    if currentStreak = longestStreak ∧ currentStreak > 0 then
      let actualLongestStreak : Int := max_streak (completionDates db1 habitID)
      if actualLongestStreak ≠ longestStreak then
        (none, setLongestStreak db1 habitID actualLongestStreak)
      else (none, db1)
    else (none, db1)

/-! ## Operations -/

/-- Function `CompleteHabit`, called on day `today`. -/
def CompleteHabit (db : DB) (habitID today : Int) : Option Error × DB :=
  if IsHabitCompletedToday db habitID today then (none, db)
  else
    UpdateHabitStreak
      { db with habit_completions := db.habit_completions ++ [⟨habitID, today⟩] }
      habitID today

/-- Function `UncompleteHabit`, called on day `today`. -/
def UncompleteHabit (db : DB) (habitID today : Int) : Option Error × DB :=
  if !IsHabitCompletedToday db habitID today then (none, db)
  else
    UpdateHabitStreakOnUncomplete
      { db with habit_completions := db.habit_completions.filter fun c =>
          ¬ (c.HabitID = habitID ∧ c.CompletedAt = today) }
      habitID

/-- Function `CreateHabit`: inserts the habit under a fresh `AUTOINCREMENT` id (one more than
the largest id the table holds or has ever handed out), then its streak row with both
counters 0 and no last completion date. Returns the id with the database. -/
def CreateHabit (db : DB) (habit : Habit) : Option Error × Int × DB :=
  let id := (db.habits.map fun h => h.ID).foldr max db.habits_seq + 1
  (none, id,
    { db with
      habits := db.habits ++ [{ habit with ID := id }]
      habits_seq := id
      habit_streaks := db.habit_streaks ++ [⟨id, 0, 0, none⟩] })

/-- Function `DeleteHabit`: the three `DELETE`s, completions first. -/
def DeleteHabit (db : DB) (id : Int) : Option Error × DB :=
  (none,
    { db with
      habit_completions := db.habit_completions.filter fun c => ¬ c.HabitID = id
      habit_streaks := db.habit_streaks.filter fun s => ¬ s.HabitID = id
      habits := db.habits.filter fun h => ¬ h.ID = id })

/-! ## Call sequences -/

/-- The two operations of the streak engine. -/
inductive Op where
  | complete
  | uncomplete
  deriving DecidableEq, Repr

/-- One call: the operation, the habit it is made on and the day it is made on. -/
structure Call where
  op : Op
  habitID : Int
  today : Int
  deriving DecidableEq, Repr

/-- The database a call leaves behind. -/
def call (db : DB) (c : Call) : DB :=
  match c.op with
  | Op.complete => (CompleteHabit db c.habitID c.today).2
  | Op.uncomplete => (UncompleteHabit db c.habitID c.today).2

/-- The database a sequence of calls, made one after the other, leaves behind. -/
def runCalls (db : DB) (cs : List Call) : DB := cs.foldl call db

/-- A sequence of calls on one habit, each given as the operation and its day. -/
def runOn (db : DB) (habitID : Int) (ops : List (Op × Int)) : DB :=
  runCalls db (ops.map fun o => ⟨o.1, habitID, o.2⟩)

/-! ## The specification's longest run -/

/-- Adds the next day of an ascending sequence to its partition into runs. The runs
are kept latest first, and so are the days of a run: the day joins the latest run
unless the gap to that run's last day is more than one day, in which case it starts a
run of its own. -/
def pushDay : List (List Int) → Int → List (List Int)
  | [], d => [[d]]
  | [] :: rs, d => [d] :: rs
  | (p :: r) :: rs, d => if d - p > 1 then [d] :: (p :: r) :: rs else (d :: p :: r) :: rs

/-- The partition of an ascending sequence of days into maximal runs of consecutive
days (latest run first). -/
def runs (days : List Int) : List (List Int) := days.foldl pushDay []

/-- The length of the longest run, 0 for the empty sequence. -/
def longestRun (days : List Int) : Nat := ((runs days).map List.length).foldr max 0

/-- The length of the run that ends at the last day, 0 for the empty sequence. -/
def currentRun (days : List Int) : Nat :=
  match runs days with
  | [] => 0
  | r :: _ => r.length

/-- The days of a ledger in ascending order, as `History` of the specification hands
them out. -/
def history (db : DB) (habitID : Int) : List Int :=
  (completionDates db habitID).insertionSort (· ≤ ·)

/-! ## Predicates on states and call sequences -/

/-- The ledger holds at most one completion event for each (habit, calendar day)
pair. -/
def AtMostOnePerDay (db : DB) : Prop :=
  ∀ habitID day : Int,
    (db.habit_completions.filter fun c =>
      c.HabitID = habitID ∧ c.CompletedAt = day).length ≤ 1

/-- A habit as `CreateHabit` leaves it: its streak row has both counters 0 and the
ledger holds no completion of it. -/
def NewHabit (db : DB) (habitID : Int) : Prop :=
  (∃ s, selectStreak db habitID = some s ∧ s.CurrentStreak = 0 ∧ s.LongestStreak = 0) ∧
    completionDates db habitID = []

/-- No day is skipped: every call of the sequence is made on a day no earlier than any
completion day of the habit in the ledger, and every `CompleteHabit` call that records
a new completion finds the ledger without a completion of the habit or with one for the
day before. -/
def noDaySkipped (habitID : Int) : DB → List (Op × Int) → Bool
  | _, [] => true
  | db, (op, today) :: rest =>
    let dates := completionDates db habitID
    dates.all (fun d => decide (d ≤ today)) &&
      (op != Op.complete || decide (today ∈ dates) || decide (dates = []) ||
        decide (today - 1 ∈ dates)) &&
      noDaySkipped habitID (call db ⟨op, habitID, today⟩) rest

/-- The run of `n` consecutive days that starts on day `a`. -/
def dayRun (a : Int) (n : Nat) : List Int := (List.range n).map fun (i : Nat) => a + (i : Int)

/-- A ledger that is one run of consecutive days, with both counters equal to its
length. -/
def OneRun (db : DB) (habitID : Int) : Prop :=
  ∃ s a n, selectStreak db habitID = some s ∧ completionDates db habitID = dayRun a n ∧
    s.CurrentStreak = (n : Int) ∧ s.LongestStreak = (n : Int)

/-! ## Auxiliary functions of the proofs -/

/-- The `streak_start` values of an ascending sequence of days whose first day has
0-based position `i`: each day minus its position. -/
def keysFrom (i : Nat) : List Int → List Int
  | [] => []
  | d :: l => (d - (i : Int)) :: keysFrom (i + 1) l

/-- The largest number of occurrences of one value in a list, 0 for the empty list. -/
def maxCount (K : List Int) : Nat := (K.dedup.map fun k => K.count k).foldr max 0

/-! ## Example states -/

/-- The empty database, before any habit is created. -/
def emptyDB : DB := ⟨[], [], [], 0⟩

/-- The database after creating one daily habit, which gets id 1. -/
def oneHabitDB : DB := (CreateHabit emptyDB ⟨0, "read", "", "daily", 1⟩).2.2

/-- Habit 1 with the ledger `1, 2, 3, 6, 7` and both counters 3. -/
def twoRunsDB : DB :=
  ⟨[⟨1, "read", "", "daily", 1⟩], [⟨1, 1⟩, ⟨1, 2⟩, ⟨1, 3⟩, ⟨1, 6⟩, ⟨1, 7⟩],
    [⟨1, 3, 3, some 7⟩], 1⟩

/-! ## Storage failures

The statements a call sends to the database are numbered in the order in which the
source runs them. For `CompleteHabit`: 0 the `SELECT COUNT(*)` of
`IsHabitCompletedToday`, 1 the `INSERT`, 2 the `UPDATE` of `UpdateHabitStreak`. For
`UncompleteHabit`: 0 the `SELECT COUNT(*)`, 1 the `DELETE`, 2 the `SELECT` of the
counters, 3 the `UPDATE` of `current_streak`, 4 the recomputation query, 5 the
`UPDATE` of `longest_streak`. A fault is the number of the statement that fails, if
one does; a failed statement changes nothing (SQLite undoes a statement that fails),
and no statement of the source runs inside a transaction. -/

/-- The error of a call whose storage may fail: the error of the failed statement, or
`sql.ErrNoRows`. -/
inductive Failure where
  | StorageError
  | ErrNoRows
  deriving DecidableEq, Repr

/-- The result of a fault-free call as a result of the calls below. -/
def liftResult (r : Option Error × DB) : Option Failure × DB :=
  (r.1.map fun _ => Failure.ErrNoRows, r.2)

/-- Function `UpdateHabitStreak` when statement `fault` fails. -/
def UpdateHabitStreakFaulty (fault : Option Nat) (db : DB) (habitID today : Int) :
    Option Failure × DB :=
  if fault = some 2 then (some Failure.StorageError, db)
  else liftResult (UpdateHabitStreak db habitID today)

/-- Function `CompleteHabit` when statement `fault` fails. -/
def CompleteHabitFaulty (fault : Option Nat) (db : DB) (habitID today : Int) :
    Option Failure × DB :=
  if fault = some 0 then (some Failure.StorageError, db)
  else if IsHabitCompletedToday db habitID today then (none, db)
  else if fault = some 1 then (some Failure.StorageError, db)
  else
    UpdateHabitStreakFaulty fault
      { db with habit_completions := db.habit_completions ++ [⟨habitID, today⟩] }
      habitID today

/-- Function `UpdateHabitStreakOnUncomplete` when statement `fault` fails. -/
def UpdateHabitStreakOnUncompleteFaulty (fault : Option Nat) (db : DB) (habitID : Int) :
    Option Failure × DB :=
  if fault = some 2 then (some Failure.StorageError, db)
  else
    match selectStreak db habitID with
    | none => (some Failure.ErrNoRows, db)
    | some row =>
      let currentStreak := row.CurrentStreak
      let longestStreak := row.LongestStreak
      let newCurrentStreak := if currentStreak - 1 < 0 then 0 else currentStreak - 1
      if fault = some 3 then (some Failure.StorageError, db)
      else
        let db1 := setCurrentStreak db habitID newCurrentStreak
        if currentStreak = longestStreak ∧ currentStreak > 0 then
          if fault = some 4 then (some Failure.StorageError, db1)
          else
            let actualLongestStreak : Int := max_streak (completionDates db1 habitID)
            if actualLongestStreak ≠ longestStreak then
              if fault = some 5 then (some Failure.StorageError, db1)
              else (none, setLongestStreak db1 habitID actualLongestStreak)
            else (none, db1)
        else (none, db1)

/-- Function `UncompleteHabit` when statement `fault` fails. -/
def UncompleteHabitFaulty (fault : Option Nat) (db : DB) (habitID today : Int) :
    Option Failure × DB :=
  if fault = some 0 then (some Failure.StorageError, db)
  else if !IsHabitCompletedToday db habitID today then (none, db)
  else if fault = some 1 then (some Failure.StorageError, db)
  else
    UpdateHabitStreakOnUncompleteFaulty fault
      { db with habit_completions := db.habit_completions.filter fun c =>
          ¬ (c.HabitID = habitID ∧ c.CompletedAt = today) }
      habitID

/-- The habit's counters count its ledger: the habit has its streak row, the ledger
holds at most one completion of it per day, `current_streak` is the number of its
completion events and `longest_streak` is not above it. -/
def Counted (db : DB) (habitID : Int) : Prop :=
  ∃ s, selectStreak db habitID = some s ∧ (completionDates db habitID).Nodup ∧
    s.CurrentStreak = ((completionDates db habitID).length : Int) ∧
    s.LongestStreak ≤ s.CurrentStreak

/-- A counter of the data model: a non-negative integer that the `INTEGER` column and
a Go `int` hold. -/
def Counter (v : Int) : Prop := 0 ≤ v ∧ v < 2 ^ 63

/-- Function `UpdateHabitStreakOnUncomplete` without the test
`currentStreak == longestStreak && currentStreak > 0` in front of the recomputation:
the query always runs. -/
def UpdateHabitStreakOnUncompleteAlways (db : DB) (habitID : Int) : Option Error × DB :=
  match selectStreak db habitID with
  | none => (some Error.ErrNoRows, db)
  | some row =>
    let currentStreak := row.CurrentStreak
    let longestStreak := row.LongestStreak
    let newCurrentStreak := if currentStreak - 1 < 0 then 0 else currentStreak - 1
    let db1 := setCurrentStreak db habitID newCurrentStreak
    let actualLongestStreak : Int := max_streak (completionDates db1 habitID)
    if actualLongestStreak ≠ longestStreak then
      (none, setLongestStreak db1 habitID actualLongestStreak)
    else (none, db1)

/-- Function `UncompleteHabit` that always recomputes `longest_streak`. -/
def UncompleteHabitAlways (db : DB) (habitID today : Int) : Option Error × DB :=
  if !IsHabitCompletedToday db habitID today then (none, db)
  else
    UpdateHabitStreakOnUncompleteAlways
      { db with habit_completions := db.habit_completions.filter fun c =>
          ¬ (c.HabitID = habitID ∧ c.CompletedAt = today) }
      habitID

/-- The state of a habit after a call made on day `T` with the clock never running
backwards: the counters count the ledger, no completion is later than `T`, and if day
`T` is completed the two counters are equal. -/
def UpToDate (db : DB) (habitID T : Int) : Prop :=
  Counted db habitID ∧ (∀ d ∈ completionDates db habitID, d ≤ T) ∧
    (T ∈ completionDates db habitID →
      ∃ s, selectStreak db habitID = some s ∧ s.CurrentStreak = s.LongestStreak)

theorem keysFrom_append (l : List Int) (d : Int) (i : Nat) :
    keysFrom i (l ++ [d]) = keysFrom i l ++ [d - ((i + l.length : Nat) : Int)] := by
  induction l generalizing i with
  | nil => simp [keysFrom]
  | cons a l ih =>
    have e : i + 1 + l.length = i + (l.length + 1) := by omega
    rw [List.cons_append, keysFrom, ih, keysFrom, List.length_cons, e, List.cons_append]

theorem streaks_keys_enumFrom (l : List Int) (i : Nat) :
    (((l.enumFrom i).map fun p => (p.2, (p.1 : Int) + 1)).map
      fun r => (r.1, r.1 - (r.2 - 1))).map Prod.snd = keysFrom i l := by
  induction l generalizing i with
  | nil => simp [keysFrom]
  | cons a l ih =>
    simp only [List.enumFrom_cons, List.map_cons, keysFrom, ih]
    congr 1
    ring

theorem streaks_keys (dates : List Int) :
    (streaks dates).map Prod.snd = keysFrom 0 (dates.insertionSort (· ≤ ·)) := by
  unfold streaks consecutive_days List.enum
  exact streaks_keys_enumFrom _ 0

theorem foldr_max_le_iff (L : List Nat) (n : Nat) :
    L.foldr max 0 ≤ n ↔ ∀ x ∈ L, x ≤ n := by
  induction L with
  | nil => simp
  | cons a L ih => simp [ih]

theorem maxCount_le_iff (K : List Int) (n : Nat) :
    maxCount K ≤ n ↔ ∀ k, K.count k ≤ n := by
  unfold maxCount
  rw [foldr_max_le_iff]
  constructor
  · intro h k
    by_cases hk : k ∈ K
    · exact h _ (List.mem_map.2 ⟨k, List.mem_dedup.2 hk, rfl⟩)
    · rw [List.count_eq_zero_of_not_mem hk]; exact Nat.zero_le _
  · intro h x hx
    obtain ⟨k, _, rfl⟩ := List.mem_map.1 hx
    exact h k

theorem max_streak_eq_maxCount (dates : List Int) :
    max_streak dates = maxCount (keysFrom 0 (dates.insertionSort (· ≤ ·))) := by
  unfold max_streak streak_lengths maxCount
  rw [streaks_keys, List.map_map]
  congr 1
  apply List.map_congr_left
  intro k _
  simp only [Function.comp]
  rw [← streaks_keys, ← List.countP_eq_length_filter, List.count, List.countP_map]
  congr 1

theorem maxCount_snoc (K : List Int) (k : Int) :
    maxCount (K ++ [k]) = max (maxCount K) (K.count k + 1) := by
  apply eq_of_forall_ge_iff
  intro n
  rw [maxCount_le_iff, max_le_iff, maxCount_le_iff]
  constructor
  · intro h
    refine ⟨fun j => ?_, ?_⟩
    · have := h j
      rw [List.count_append] at this
      omega
    · have := h k
      rw [List.count_append, List.count_singleton_self] at this
      exact this
  · rintro ⟨h1, h2⟩ j
    rw [List.count_append, List.count_singleton]
    by_cases hj : k = j
    · subst hj; simpa using h2
    · have := h1 j
      simp [hj, this]

theorem runs_snoc (l : List Int) (d : Int) : runs (l ++ [d]) = pushDay (runs l) d := by
  simp [runs, List.foldl_append]

/-- The invariant of the scan over an ascending sequence of distinct days: the longest
run is the largest bucket, and the latest run is the bucket of the last day. -/
theorem runs_keys_invariant (l : List Int) (hs : l.Sorted (· < ·)) :
    longestRun l = maxCount (keysFrom 0 l) ∧
    ∀ l0 p, l = l0 ++ [p] →
      (∃ r rs, runs l = (p :: r) :: rs ∧
        (keysFrom 0 l).count (p - (l0.length : Int)) = r.length + 1) ∧
      ∀ k ∈ keysFrom 0 l, k ≤ p - (l0.length : Int) := by
  induction l using List.reverseRecOn with
  | nil => simp [longestRun, runs, maxCount, keysFrom]
  | append_singleton l d ih =>
    obtain ⟨hsl, -, hlt⟩ := List.pairwise_append.1 hs
    obtain ⟨ih1, ih2⟩ := ih hsl
    rcases List.eq_nil_or_concat l with rfl | ⟨l0, p, rfl⟩
    · refine ⟨by simp [longestRun, runs, pushDay, maxCount, keysFrom], ?_⟩
      intro l0 p h
      have h' : l0 = [] ∧ d = p := by
        rcases l0 with _ | ⟨a, l0⟩
        · simpa using h
        · simp at h
      obtain ⟨rfl, rfl⟩ := h'
      simp [runs, pushDay, keysFrom]
    · rw [List.concat_eq_append] at *
      obtain ⟨⟨r, rs, hr, hc⟩, hk⟩ := ih2 l0 p rfl
      have hpd : p < d := hlt p (by simp) d (by simp)
      have hkeys : keysFrom 0 (l0 ++ [p] ++ [d])
          = keysFrom 0 (l0 ++ [p]) ++ [d - ((l0.length : Int) + 1)] := by
        rw [keysFrom_append]; simp
      have hlr : longestRun (l0 ++ [p]) = max (r.length + 1) ((rs.map List.length).foldr max 0) := by
        simp [longestRun, hr]
      by_cases hgap : d - p > 1
      · have hruns : runs (l0 ++ [p] ++ [d]) = [d] :: (p :: r) :: rs := by
          rw [runs_snoc, hr]; simp [pushDay, hgap]
        have hcount : (keysFrom 0 (l0 ++ [p])).count (d - ((l0.length : Int) + 1)) = 0 := by
          apply List.count_eq_zero_of_not_mem
          intro hmem
          have := hk _ hmem
          omega
        have hlr2 : longestRun (l0 ++ [p] ++ [d]) = max 1 (longestRun (l0 ++ [p])) := by
          unfold longestRun
          rw [hruns, hr]
          simp
        refine ⟨?_, ?_⟩
        · rw [hkeys, maxCount_snoc, hcount, ← ih1, hlr2]
          omega
        · intro l1 q h
          obtain ⟨rfl, hq⟩ := List.append_inj' h rfl
          obtain rfl : d = q := by simpa using hq
          rw [List.length_append, List.length_singleton]
          push_cast
          refine ⟨⟨[], (p :: r) :: rs, hruns, ?_⟩, ?_⟩
          · rw [hkeys, List.count_append, hcount]
            simp
          · intro k hkm
            rw [hkeys] at hkm
            rcases List.mem_append.1 hkm with hkm | hkm
            · have := hk _ hkm
              omega
            · have : k = d - ((l0.length : Int) + 1) := by simpa using hkm
              omega
      · have hd : d = p + 1 := by omega
        subst hd
        have hruns : runs (l0 ++ [p] ++ [p + 1]) = ((p + 1) :: p :: r) :: rs := by
          rw [runs_snoc, hr]; simp [pushDay]
        have hkey : p + 1 - ((l0.length : Int) + 1) = p - (l0.length : Int) := by ring
        have hlr2 : longestRun (l0 ++ [p] ++ [p + 1])
            = max (r.length + 2) ((rs.map List.length).foldr max 0) := by
          unfold longestRun
          rw [hruns]
          simp
        refine ⟨?_, ?_⟩
        · rw [hkeys, maxCount_snoc, hkey, hc, ← ih1, hlr, hlr2]
          omega
        · intro l1 q h
          obtain ⟨rfl, hq⟩ := List.append_inj' h rfl
          obtain rfl : p + 1 = q := by simpa using hq
          rw [List.length_append, List.length_singleton]
          push_cast
          refine ⟨⟨p :: r, rs, hruns, ?_⟩, ?_⟩
          · rw [hkeys, List.count_append, hkey, hc]
            simp
          · intro k hkm
            rw [hkeys] at hkm
            rcases List.mem_append.1 hkm with hkm | hkm
            · have := hk _ hkm
              omega
            · have : k = p + 1 - ((l0.length : Int) + 1) := by simpa using hkm
              omega

theorem max_streak_of_sorted (days : List Int) (h : days.Sorted (· < ·)) :
    max_streak days = longestRun days := by
  rw [max_streak_eq_maxCount, List.Sorted.insertionSort_eq (List.Sorted.le_of_lt h)]
  exact ((runs_keys_invariant days h).1).symm

/-- C2: for every strictly ascending sequence of (distinct) completion days, the
recomputation query (rank the days from 1, bucket each day by day minus (rank - 1),
take the size of the largest bucket, 0 without buckets) returns the length of the
longest maximal run of consecutive days of the sequence, a run breaking exactly where
two successive days differ by more than one; for the empty sequence both are 0. -/
theorem max_streak_eq_longestRun (days : List Int) (h : days.Sorted (· < ·)) :
    max_streak days = longestRun days ∧ max_streak [] = 0 ∧ longestRun [] = 0 :=
  ⟨max_streak_of_sorted days h, by decide, by decide⟩

theorem max_streak_eq_longestRun_witness :
    List.Sorted (· < ·) [1, 2, 3, 6, 7] ∧
    (max_streak [1, 2, 3, 6, 7] = longestRun [1, 2, 3, 6, 7] ∧ max_streak [] = 0 ∧
      longestRun [] = 0) :=
  ⟨by decide, max_streak_eq_longestRun [1, 2, 3, 6, 7] (by decide)⟩

/-! ## Facts about the tables -/

theorem isHabitCompletedToday_iff (db : DB) (habitID today : Int) :
    IsHabitCompletedToday db habitID today = true ↔
      (⟨habitID, today⟩ : HabitCompletion) ∈ db.habit_completions := by
  unfold IsHabitCompletedToday
  simp only [decide_eq_true_eq, gt_iff_lt, List.length_pos_iff_exists_mem, List.mem_filter]
  constructor
  · rintro ⟨⟨h, d⟩, hc, hp⟩
    simp only [decide_eq_true_eq] at hp
    obtain ⟨rfl, rfl⟩ := hp
    exact hc
  · intro hc
    exact ⟨_, hc, by simp⟩

theorem mem_completionDates (db : DB) (habitID d : Int) :
    d ∈ completionDates db habitID ↔
      (⟨habitID, d⟩ : HabitCompletion) ∈ db.habit_completions := by
  unfold completionDates
  simp only [List.mem_map, List.mem_filter, decide_eq_true_eq]
  constructor
  · rintro ⟨⟨h, e⟩, ⟨hc, rfl⟩, rfl⟩
    exact hc
  · intro hc
    exact ⟨_, ⟨hc, rfl⟩, rfl⟩

theorem completionDates_insert (db : DB) (habitID today : Int) (st : List HabitStreak) :
    completionDates
        { db with
          habit_completions := db.habit_completions ++ [⟨habitID, today⟩]
          habit_streaks := st } habitID
      = completionDates db habitID ++ [today] := by
  simp [completionDates, List.filter_append]

theorem completionDates_delete (db : DB) (habitID today : Int) (st : List HabitStreak) :
    completionDates
        { db with
          habit_completions := db.habit_completions.filter fun c =>
            ¬ (c.HabitID = habitID ∧ c.CompletedAt = today)
          habit_streaks := st } habitID
      = (completionDates db habitID).filter fun d => d ≠ today := by
  simp only [completionDates, List.filter_filter, List.filter_map]
  congr 1
  apply List.filter_congr
  intro c _
  by_cases h1 : c.HabitID = habitID <;> by_cases h2 : c.CompletedAt = today <;>
    simp [h1, h2]

theorem find?_map_streak (st : List HabitStreak) (f : HabitStreak → HabitStreak)
    (hf : ∀ s, (f s).HabitID = s.HabitID) (habitID : Int) :
    (st.map f).find? (fun s => s.HabitID = habitID)
      = (st.find? fun s => s.HabitID = habitID).map f := by
  rw [List.find?_map]
  congr 2
  funext s
  simp [hf]

theorem selectStreak_habitID {db : DB} {habitID : Int} {s : HabitStreak}
    (h : selectStreak db habitID = some s) : s.HabitID = habitID := by
  have := List.find?_some h
  simpa using this

/-! ## `CompleteHabit` -/

theorem completeHabit_of_completed (db : DB) (habitID today : Int)
    (h : (⟨habitID, today⟩ : HabitCompletion) ∈ db.habit_completions) :
    CompleteHabit db habitID today = (none, db) := by
  unfold CompleteHabit
  rw [(isHabitCompletedToday_iff db habitID today).2 h]
  rfl

theorem isHabitCompletedToday_false {db : DB} {habitID today : Int}
    (h : (⟨habitID, today⟩ : HabitCompletion) ∉ db.habit_completions) :
    IsHabitCompletedToday db habitID today = false := by
  rw [← Bool.not_eq_true, isHabitCompletedToday_iff]
  exact h

theorem completeHabit_of_not_completed (db : DB) (habitID today : Int)
    (h : (⟨habitID, today⟩ : HabitCompletion) ∉ db.habit_completions) :
    CompleteHabit db habitID today =
      UpdateHabitStreak
        { db with habit_completions := db.habit_completions ++ [⟨habitID, today⟩] }
        habitID today := by
  unfold CompleteHabit
  rw [isHabitCompletedToday_false h]
  rfl

theorem selectStreak_updateHabitStreak (db : DB) (habitID today : Int) (s : HabitStreak)
    (hs : selectStreak db habitID = some s) :
    selectStreak (UpdateHabitStreak db habitID today).2 habitID =
      some ⟨s.HabitID, s.CurrentStreak + 1,
        max s.LongestStreak (s.CurrentStreak + 1), some today⟩ := by
  have hid := selectStreak_habitID hs
  unfold selectStreak at hs ⊢
  unfold UpdateHabitStreak
  simp only
  rw [find?_map_streak _ _ (by intro s; split <;> rfl), hs]
  simp only [Option.map_some', hid, if_true]
  congr 2
  split <;> omega

/-- What `CompleteHabit` does when today's completion is not in the ledger and the
habit has a streak row. -/
theorem completeHabit_spec (db : DB) (habitID today : Int) (s : HabitStreak)
    (hs : selectStreak db habitID = some s)
    (hnew : (⟨habitID, today⟩ : HabitCompletion) ∉ db.habit_completions) :
    (CompleteHabit db habitID today).1 = none ∧
    (CompleteHabit db habitID today).2.habit_completions
      = db.habit_completions ++ [⟨habitID, today⟩] ∧
    selectStreak (CompleteHabit db habitID today).2 habitID =
      some ⟨s.HabitID, s.CurrentStreak + 1,
        max s.LongestStreak (s.CurrentStreak + 1), some today⟩ := by
  rw [completeHabit_of_not_completed db habitID today hnew]
  exact ⟨rfl, rfl, selectStreak_updateHabitStreak _ _ _ s hs⟩

/-- C4: in every state in which the habit has its streak row and the ledger has no
completion for (habit, today), `CompleteHabit` succeeds, the ledger afterwards is the
old ledger with one more event, the one for (habit, today), `current_streak` is the
previous value plus 1, `longest_streak` is the maximum of its previous value and the
new `current_streak`, and the last completion day is today, whatever it was before. In
particular, for a newly created habit, completing on day 1 gives current = longest = 1
and then completing on day 2 gives current = longest = 2. -/
theorem CompleteHabit_postcondition (db : DB) (habitID today : Int) (s : HabitStreak)
    (hs : selectStreak db habitID = some s)
    (hnew : (⟨habitID, today⟩ : HabitCompletion) ∉ db.habit_completions) :
    ((CompleteHabit db habitID today).1 = none ∧
      (CompleteHabit db habitID today).2.habit_completions
        = db.habit_completions ++ [⟨habitID, today⟩] ∧
      ∃ s', selectStreak (CompleteHabit db habitID today).2 habitID = some s' ∧
        s'.CurrentStreak = s.CurrentStreak + 1 ∧
        s'.LongestStreak = max s.LongestStreak (s.CurrentStreak + 1) ∧
        s'.LastCompletionDate = some today) ∧
    (NewHabit db habitID →
      (∃ s1, selectStreak (CompleteHabit db habitID 1).2 habitID = some s1 ∧
        s1.CurrentStreak = 1 ∧ s1.LongestStreak = 1) ∧
      ∃ s2, selectStreak (CompleteHabit (CompleteHabit db habitID 1).2 habitID 2).2 habitID
          = some s2 ∧ s2.CurrentStreak = 2 ∧ s2.LongestStreak = 2) := by
  constructor
  · obtain ⟨e1, e2, e3⟩ := completeHabit_spec db habitID today s hs hnew
    exact ⟨e1, e2, _, e3, rfl, rfl, rfl⟩
  · rintro ⟨⟨s0, hs0, hc0, hl0⟩, hdates⟩
    have h1 : (⟨habitID, 1⟩ : HabitCompletion) ∉ db.habit_completions := by
      rw [← mem_completionDates, hdates]; simp
    obtain ⟨-, e2, e3⟩ := completeHabit_spec db habitID 1 s0 hs0 h1
    rw [hc0, hl0] at e3
    have h2 : (⟨habitID, 2⟩ : HabitCompletion) ∉
        (CompleteHabit db habitID 1).2.habit_completions := by
      rw [e2, List.mem_append, ← mem_completionDates, hdates]
      simp
    obtain ⟨-, -, e5⟩ := completeHabit_spec _ habitID 2 _ e3 h2
    exact ⟨⟨_, e3, by simp, by simp⟩, ⟨_, e5, by simp, by simp⟩⟩

/-- C5: calling `CompleteHabit` again for the same habit on the same day returns
success and leaves the whole database (ledger, `current_streak`, `longest_streak` and
last completion day included) as the first call left it. -/
theorem CompleteHabit_idempotent (db : DB) (habitID today : Int) :
    CompleteHabit (CompleteHabit db habitID today).2 habitID today
      = (none, (CompleteHabit db habitID today).2) := by
  apply completeHabit_of_completed
  by_cases h : (⟨habitID, today⟩ : HabitCompletion) ∈ db.habit_completions
  · rw [completeHabit_of_completed db habitID today h]
    exact h
  · rw [completeHabit_of_not_completed db habitID today h]
    show _ ∈ db.habit_completions ++ [⟨habitID, today⟩]
    simp

theorem CompleteHabit_postcondition_witness :
    selectStreak ⟨[], [⟨1, 1⟩], [⟨1, 4, 6, some 1⟩], 1⟩ 1 = some ⟨1, 4, 6, some 1⟩ ∧
    (⟨1, 9⟩ : HabitCompletion) ∉ (⟨[], [⟨1, 1⟩], [⟨1, 4, 6, some 1⟩], 1⟩ : DB).habit_completions ∧
    (CompleteHabit ⟨[], [⟨1, 1⟩], [⟨1, 4, 6, some 1⟩], 1⟩ 1 9).2.habit_completions
      = [⟨1, 1⟩, ⟨1, 9⟩] :=
  ⟨by decide, by decide,
    (CompleteHabit_postcondition ⟨[], [⟨1, 1⟩], [⟨1, 4, 6, some 1⟩], 1⟩ 1 9 ⟨1, 4, 6, some 1⟩
      (by decide) (by decide)).1.2.1⟩

/-! ## `UncompleteHabit` -/

theorem uncompleteHabit_of_not_completed (db : DB) (habitID today : Int)
    (h : (⟨habitID, today⟩ : HabitCompletion) ∉ db.habit_completions) :
    UncompleteHabit db habitID today = (none, db) := by
  unfold UncompleteHabit
  rw [isHabitCompletedToday_false h]
  rfl

theorem uncompleteHabit_of_completed (db : DB) (habitID today : Int)
    (h : (⟨habitID, today⟩ : HabitCompletion) ∈ db.habit_completions) :
    UncompleteHabit db habitID today =
      UpdateHabitStreakOnUncomplete
        { db with habit_completions := db.habit_completions.filter fun c =>
            ¬ (c.HabitID = habitID ∧ c.CompletedAt = today) }
        habitID := by
  unfold UncompleteHabit
  rw [(isHabitCompletedToday_iff db habitID today).2 h]
  rfl

theorem selectStreak_setCurrentStreak (db : DB) (habitID v : Int) (s : HabitStreak)
    (hs : selectStreak db habitID = some s) :
    selectStreak (setCurrentStreak db habitID v) habitID
      = some { s with CurrentStreak := v } := by
  have hid := selectStreak_habitID hs
  unfold selectStreak at hs ⊢
  unfold setCurrentStreak
  simp only
  rw [find?_map_streak _ _ (by intro s; split <;> rfl), hs]
  simp [hid]

theorem selectStreak_setLongestStreak (db : DB) (habitID v : Int) (s : HabitStreak)
    (hs : selectStreak db habitID = some s) :
    selectStreak (setLongestStreak db habitID v) habitID
      = some { s with LongestStreak := v } := by
  have hid := selectStreak_habitID hs
  unfold selectStreak at hs ⊢
  unfold setLongestStreak
  simp only
  rw [find?_map_streak _ _ (by intro s; split <;> rfl), hs]
  simp [hid]

/-- What `UpdateHabitStreakOnUncomplete` does when the habit has a streak row. -/
theorem updateHabitStreakOnUncomplete_spec (db : DB) (habitID : Int) (s : HabitStreak)
    (hs : selectStreak db habitID = some s) :
    (UpdateHabitStreakOnUncomplete db habitID).1 = none ∧
    (UpdateHabitStreakOnUncomplete db habitID).2.habit_completions = db.habit_completions ∧
    selectStreak (UpdateHabitStreakOnUncomplete db habitID).2 habitID =
      some { s with
        CurrentStreak := max (s.CurrentStreak - 1) 0
        LongestStreak :=
          if s.CurrentStreak = s.LongestStreak ∧ s.CurrentStreak > 0 then
            (max_streak (completionDates db habitID) : Int)
          else s.LongestStreak } := by
  have hmax : (if s.CurrentStreak - 1 < 0 then 0 else s.CurrentStreak - 1)
      = max (s.CurrentStreak - 1) 0 := by
    split <;> omega
  have hdates : ∀ v, completionDates (setCurrentStreak db habitID v) habitID
      = completionDates db habitID := fun _ => rfl
  unfold UpdateHabitStreakOnUncomplete
  rw [hs]
  simp only [hmax, hdates]
  have h1 := selectStreak_setCurrentStreak db habitID (max (s.CurrentStreak - 1) 0) s hs
  by_cases ht : s.CurrentStreak = s.LongestStreak ∧ s.CurrentStreak > 0
  · rw [if_pos ht, if_pos ht]
    by_cases hne : (max_streak (completionDates db habitID) : Int) ≠ s.LongestStreak
    · rw [if_pos hne]
      refine ⟨rfl, rfl, ?_⟩
      rw [selectStreak_setLongestStreak _ _ _ _ h1]
    · rw [if_neg hne]
      refine ⟨rfl, rfl, ?_⟩
      rw [h1, not_not.1 hne]
  · rw [if_neg ht, if_neg ht]
    exact ⟨rfl, rfl, h1⟩

theorem filter_ne_completion (l : List HabitCompletion) (habitID today : Int) :
    (l.filter fun c => ¬ (c.HabitID = habitID ∧ c.CompletedAt = today))
      = l.filter fun c => c ≠ ⟨habitID, today⟩ := by
  apply List.filter_congr
  rintro ⟨h, d⟩ _
  simp

theorem max_streak_of_nodup (dates : List Int) (hn : dates.Nodup) :
    max_streak dates = longestRun (dates.insertionSort (· ≤ ·)) := by
  have hs : (dates.insertionSort (· ≤ ·)).Sorted (· < ·) :=
    (List.sorted_insertionSort (· ≤ ·) dates).lt_of_le
      ((List.perm_insertionSort (· ≤ ·) dates).nodup_iff.2 hn)
  rw [max_streak_eq_maxCount]
  exact ((runs_keys_invariant _ hs).1).symm

/-- What `UncompleteHabit` does when today's completion is in the ledger and the habit
has a streak row. -/
theorem uncompleteHabit_spec (db : DB) (habitID t : Int) (s : HabitStreak)
    (hs : selectStreak db habitID = some s)
    (ht : (⟨habitID, t⟩ : HabitCompletion) ∈ db.habit_completions) :
    (UncompleteHabit db habitID t).1 = none ∧
    (UncompleteHabit db habitID t).2.habit_completions
      = (db.habit_completions.filter fun c => c ≠ ⟨habitID, t⟩) ∧
    completionDates (UncompleteHabit db habitID t).2 habitID
      = ((completionDates db habitID).filter fun d => d ≠ t) ∧
    selectStreak (UncompleteHabit db habitID t).2 habitID = some { s with
      CurrentStreak := max (s.CurrentStreak - 1) 0
      LongestStreak :=
        if s.CurrentStreak = s.LongestStreak ∧ s.CurrentStreak > 0 then
          (max_streak ((completionDates db habitID).filter fun d => d ≠ t) : Int)
        else s.LongestStreak } := by
  rw [uncompleteHabit_of_completed db habitID t ht]
  obtain ⟨e1, e2, e3⟩ := updateHabitStreakOnUncomplete_spec
    { db with habit_completions := db.habit_completions.filter fun c =>
        ¬ (c.HabitID = habitID ∧ c.CompletedAt = t) } habitID s hs
  have hd := completionDates_delete db habitID t db.habit_streaks
  refine ⟨e1, ?_, ?_, ?_⟩
  · rw [e2]; exact filter_ne_completion _ _ _
  · unfold completionDates at hd ⊢
    rw [e2]
    exact hd
  · rw [e3, hd]

/-- C3: in every state in which the habit has its streak row, with counters that are
non-negative 64-bit integers, and at most one completion per day: when the ledger has no completion for (habit, today),
`UncompleteHabit` returns success and changes nothing; otherwise it removes today's
completion from the ledger, `current_streak` becomes `max (prevCurrent - 1) 0`, and
`longest_streak` becomes the length of the longest run of consecutive days of the
remaining ledger when `prevCurrent = prevLongest` and `prevCurrent > 0`, and stays
`prevLongest` otherwise. In particular, with ledger `D, D+1, D+2, D+5, D+6`,
current = longest = 3 and today = `D+2`, the result is current = 2 and longest = 2. -/
theorem UncompleteHabit_postcondition (db : DB) (habitID today : Int) (s : HabitStreak)
    (hs : selectStreak db habitID = some s)
    (_hcur : Counter s.CurrentStreak) (_hlong : Counter s.LongestStreak)
    (hu : (completionDates db habitID).Nodup) :
    ((⟨habitID, today⟩ : HabitCompletion) ∉ db.habit_completions →
      UncompleteHabit db habitID today = (none, db)) ∧
    ((⟨habitID, today⟩ : HabitCompletion) ∈ db.habit_completions →
      (UncompleteHabit db habitID today).1 = none ∧
      (UncompleteHabit db habitID today).2.habit_completions
        = (db.habit_completions.filter fun c => c ≠ ⟨habitID, today⟩) ∧
      ∃ s', selectStreak (UncompleteHabit db habitID today).2 habitID = some s' ∧
        s'.CurrentStreak = max (s.CurrentStreak - 1) 0 ∧
        s'.LongestStreak =
          if s.CurrentStreak = s.LongestStreak ∧ s.CurrentStreak > 0 then
            (longestRun (history (UncompleteHabit db habitID today).2 habitID) : Int)
          else s.LongestStreak) ∧
    (∀ D : Int, completionDates db habitID = [D, D + 1, D + 2, D + 5, D + 6] →
      s.CurrentStreak = 3 → s.LongestStreak = 3 →
      ∃ s', selectStreak (UncompleteHabit db habitID (D + 2)).2 habitID = some s' ∧
        s'.CurrentStreak = 2 ∧ s'.LongestStreak = 2) := by
  refine ⟨uncompleteHabit_of_not_completed db habitID today, ?_, ?_⟩
  · intro ht
    obtain ⟨e1, e2, e3, e4⟩ := uncompleteHabit_spec db habitID today s hs ht
    refine ⟨e1, e2, _, e4, rfl, ?_⟩
    simp only
    unfold history
    rw [e3, max_streak_of_nodup _ (hu.filter _)]
  · intro D hD hc hl
    have hmem : (⟨habitID, D + 2⟩ : HabitCompletion) ∈ db.habit_completions := by
      rw [← mem_completionDates, hD]; simp
    obtain ⟨-, -, -, e4⟩ := uncompleteHabit_spec db habitID (D + 2) s hs hmem
    refine ⟨_, e4, ?_, ?_⟩
    · simp only [hc]; decide
    · simp only [hc, hl]
      have hf : ([D, D + 1, D + 2, D + 5, D + 6].filter fun d => d ≠ D + 2)
          = [D, D + 1, D + 5, D + 6] := by
        simp [List.filter_cons]
      rw [hD, hf, max_streak_of_sorted [D, D + 1, D + 5, D + 6] (by simp)]
      simp [longestRun, runs, pushDay]

theorem UncompleteHabit_postcondition_witness :
    selectStreak twoRunsDB 1 = some ⟨1, 3, 3, some 7⟩ ∧
    Counter 3 ∧
    (completionDates twoRunsDB 1).Nodup ∧
    ∃ s', selectStreak (UncompleteHabit twoRunsDB 1 (1 + 2)).2 1 = some s' ∧
      s'.CurrentStreak = 2 ∧ s'.LongestStreak = 2 :=
  ⟨by decide, by norm_num [Counter], by decide,
    (UncompleteHabit_postcondition twoRunsDB 1 3 ⟨1, 3, 3, some 7⟩ (by decide)
      (by norm_num [Counter]) (by norm_num [Counter]) (by decide)).2.2 1 (by decide) rfl rfl⟩

/-! ## Round trip -/

/-- C6 as stated fails: when the habit is already completed today, `CompleteHabit` is
a no-op and the following `UncompleteHabit` takes `current_streak` from 1 to 0. -/
theorem Complete_then_Uncomplete_counterexample :
    selectStreak (CompleteHabit oneHabitDB 1 1).2 1 = some ⟨1, 1, 1, some 1⟩ ∧
    selectStreak
      (UncompleteHabit (CompleteHabit (CompleteHabit oneHabitDB 1 1).2 1 1).2 1 1).2 1
      = some ⟨1, 0, 0, some 1⟩ := by
  decide

/-! ## Ledger uniqueness -/

theorem atMostOnePerDay_iff_nodup (db : DB) :
    AtMostOnePerDay db ↔ db.habit_completions.Nodup := by
  rw [List.nodup_iff_count_le_one]
  unfold AtMostOnePerDay
  have e : ∀ h d : Int,
      (db.habit_completions.filter fun c => c.HabitID = h ∧ c.CompletedAt = d).length
        = db.habit_completions.count ⟨h, d⟩ := by
    intro h d
    rw [List.count, List.countP_eq_length_filter]
    congr 1
    apply List.filter_congr
    rintro ⟨h', d'⟩ _
    rw [Bool.eq_iff_iff]
    simp
  constructor
  · rintro H ⟨h, d⟩
    rw [← e]; exact H h d
  · intro H h d
    rw [e]; exact H _

theorem completeHabit_nodup (db : DB) (habitID today : Int)
    (h : db.habit_completions.Nodup) :
    (CompleteHabit db habitID today).2.habit_completions.Nodup := by
  by_cases hc : (⟨habitID, today⟩ : HabitCompletion) ∈ db.habit_completions
  · rw [completeHabit_of_completed db habitID today hc]; exact h
  · rw [completeHabit_of_not_completed db habitID today hc]
    show (db.habit_completions ++ [(⟨habitID, today⟩ : HabitCompletion)]).Nodup
    refine List.nodup_append.2 ⟨h, List.nodup_singleton _, ?_⟩
    intro a ha hb
    rw [List.mem_singleton] at hb
    exact hc (hb ▸ ha)

theorem uncompleteHabit_completions (db : DB) (habitID today : Int) :
    (UncompleteHabit db habitID today).2.habit_completions
      = db.habit_completions.filter fun c => c ≠ ⟨habitID, today⟩ := by
  by_cases hc : (⟨habitID, today⟩ : HabitCompletion) ∈ db.habit_completions
  · rw [uncompleteHabit_of_completed db habitID today hc, ← filter_ne_completion]
    unfold UpdateHabitStreakOnUncomplete
    split
    · rfl
    · simp only
      split_ifs <;> rfl
  · rw [uncompleteHabit_of_not_completed db habitID today hc]
    symm
    rw [List.filter_eq_self]
    intro a ha
    simp only [ne_eq, decide_eq_true_eq]
    rintro rfl
    exact hc ha

theorem call_nodup (db : DB) (c : Call) (h : db.habit_completions.Nodup) :
    (call db c).habit_completions.Nodup := by
  unfold call
  split
  · exact completeHabit_nodup db _ _ h
  · rw [uncompleteHabit_completions]; exact h.filter _

theorem runCalls_nodup (cs : List Call) (db : DB) (h : db.habit_completions.Nodup) :
    (runCalls db cs).habit_completions.Nodup := by
  induction cs generalizing db with
  | nil => exact h
  | cons c cs ih => exact ih _ (call_nodup db c h)

/-- C9: if the ledger holds at most one completion event per (habit, calendar day)
pair, so does the ledger after `CompleteHabit` and after `UncompleteHabit`, on any
habit and any day, and after any sequence of such calls; hence every state reached
from an empty ledger by these operations has the property. -/
theorem ledger_unique (db : DB) (hu : AtMostOnePerDay db) (habitID today : Int)
    (cs : List Call) :
    AtMostOnePerDay (CompleteHabit db habitID today).2 ∧
    AtMostOnePerDay (UncompleteHabit db habitID today).2 ∧
    AtMostOnePerDay (runCalls db cs) ∧
    ∀ db0 : DB, db0.habit_completions = [] → AtMostOnePerDay (runCalls db0 cs) := by
  rw [atMostOnePerDay_iff_nodup] at hu
  refine ⟨?_, ?_, ?_, ?_⟩
  · exact (atMostOnePerDay_iff_nodup _).2 (completeHabit_nodup db _ _ hu)
  · rw [atMostOnePerDay_iff_nodup, uncompleteHabit_completions]
    exact hu.filter _
  · exact (atMostOnePerDay_iff_nodup _).2 (runCalls_nodup cs db hu)
  · intro db0 h0
    exact (atMostOnePerDay_iff_nodup _).2 (runCalls_nodup cs db0 (by rw [h0]; exact List.nodup_nil))

theorem ledger_unique_witness :
    AtMostOnePerDay twoRunsDB ∧
    AtMostOnePerDay (CompleteHabit twoRunsDB 1 7).2 ∧
    AtMostOnePerDay (UncompleteHabit twoRunsDB 1 7).2 ∧
    AtMostOnePerDay (runCalls twoRunsDB [⟨Op.complete, 1, 8⟩, ⟨Op.complete, 2, 8⟩,
      ⟨Op.uncomplete, 1, 8⟩, ⟨Op.complete, 1, 8⟩]) :=
  ⟨(atMostOnePerDay_iff_nodup _).2 (by decide),
    (ledger_unique twoRunsDB ((atMostOnePerDay_iff_nodup _).2 (by decide)) 1 7
      [⟨Op.complete, 1, 8⟩, ⟨Op.complete, 2, 8⟩, ⟨Op.uncomplete, 1, 8⟩,
        ⟨Op.complete, 1, 8⟩]).1,
    (ledger_unique twoRunsDB ((atMostOnePerDay_iff_nodup _).2 (by decide)) 1 7
      [⟨Op.complete, 1, 8⟩, ⟨Op.complete, 2, 8⟩, ⟨Op.uncomplete, 1, 8⟩,
        ⟨Op.complete, 1, 8⟩]).2.1,
    (ledger_unique twoRunsDB ((atMostOnePerDay_iff_nodup _).2 (by decide)) 1 7
      [⟨Op.complete, 1, 8⟩, ⟨Op.complete, 2, 8⟩, ⟨Op.uncomplete, 1, 8⟩,
        ⟨Op.complete, 1, 8⟩]).2.2.1⟩

/-! ## Round trip, continued -/

/-- C6, amended: in every state in which the habit has its streak row, with counters
that are non-negative 64-bit integers and a `current_streak` whose increment is one
too, and the ledger has no completion for (habit, today), `CompleteHabit` followed by
`UncompleteHabit` on the same day leaves `current_streak` at its value before the
`CompleteHabit` call; and in every state the two calls leave the ledger without an
event for (habit, today). -/
theorem Complete_then_Uncomplete (db : DB) (habitID today : Int) :
    (∀ s, selectStreak db habitID = some s →
      Counter s.CurrentStreak → Counter (s.CurrentStreak + 1) → Counter s.LongestStreak →
      (⟨habitID, today⟩ : HabitCompletion) ∉ db.habit_completions →
      ∃ s', selectStreak
          (UncompleteHabit (CompleteHabit db habitID today).2 habitID today).2 habitID
            = some s' ∧ s'.CurrentStreak = s.CurrentStreak) ∧
    (⟨habitID, today⟩ : HabitCompletion) ∉
      (UncompleteHabit (CompleteHabit db habitID today).2 habitID today).2.habit_completions := by
  constructor
  · intro s hs hnn _ _ hnew
    obtain ⟨-, hl, hs1⟩ := completeHabit_spec db habitID today s hs hnew
    have hmem : (⟨habitID, today⟩ : HabitCompletion) ∈
        (CompleteHabit db habitID today).2.habit_completions := by
      rw [hl]; simp
    obtain ⟨-, -, -, e4⟩ := uncompleteHabit_spec _ habitID today _ hs1 hmem
    refine ⟨_, e4, ?_⟩
    have := hnn.1
    simp only
    omega
  · rw [uncompleteHabit_completions]
    simp

theorem Complete_then_Uncomplete_witness :
    selectStreak twoRunsDB 1 = some ⟨1, 3, 3, some 7⟩ ∧
    Counter 3 ∧ Counter (3 + 1) ∧
    (⟨1, 9⟩ : HabitCompletion) ∉ twoRunsDB.habit_completions ∧
    ∃ s', selectStreak (UncompleteHabit (CompleteHabit twoRunsDB 1 9).2 1 9).2 1
        = some s' ∧ s'.CurrentStreak = 3 :=
  ⟨by decide, by norm_num [Counter], by norm_num [Counter], by decide,
    (Complete_then_Uncomplete twoRunsDB 1 9).1 ⟨1, 3, 3, some 7⟩ (by decide)
      (by norm_num [Counter]) (by norm_num [Counter]) (by norm_num [Counter]) (by decide)⟩

/-! ## Unknown habits -/

/-- The code on an unknown habit: with no habit in the database, `CompleteHabit` on
id 7 returns success and leaves a completion event of habit 7 in the ledger, and so it
does on id 1 after habit 1 was created and deleted; `UncompleteHabit` then deletes the
event and returns `sql.ErrNoRows`, there being no streak row. -/
theorem CompleteHabit_unknown_habit :
    CompleteHabit emptyDB 7 1 = (none, ⟨[], [⟨7, 1⟩], [], 0⟩) ∧
    (DeleteHabit oneHabitDB 1).2 = ⟨[], [], [], 1⟩ ∧
    CompleteHabit (DeleteHabit oneHabitDB 1).2 1 5 = (none, ⟨[], [⟨1, 5⟩], [], 1⟩) ∧
    UncompleteHabit (CompleteHabit (DeleteHabit oneHabitDB 1).2 1 5).2 1 5
      = (some Error.ErrNoRows, ⟨[], [], [], 1⟩) := by
  decide

/-- C10 as stated fails: `UncompleteHabit` on a habit that was never created, and on
one that was created and deleted, returns success, not an error. -/
theorem UncompleteHabit_unknown_habit_counterexample :
    emptyDB.habits = [] ∧
    UncompleteHabit emptyDB 7 1 = (none, emptyDB) ∧
    (DeleteHabit oneHabitDB 1).2.habits = [] ∧
    UncompleteHabit (DeleteHabit oneHabitDB 1).2 1 5 = (none, (DeleteHabit oneHabitDB 1).2) := by
  decide

/-- C10, amended: for every habit identifier for which the ledger holds no completion
event, as is the case after `DeleteHabit`, which leaves no habit row, no ledger event
and no streak row of the identifier, `UncompleteHabit` returns success and leaves the
database unchanged. -/
theorem UncompleteHabit_unknown_habit (db : DB) (habitID today : Int)
    (hno : ∀ c ∈ db.habit_completions, c.HabitID ≠ habitID) :
    UncompleteHabit db habitID today = (none, db) ∧
    (∀ db0 : DB,
      (DeleteHabit db0 habitID).1 = none ∧
      (∀ h ∈ (DeleteHabit db0 habitID).2.habits, h.ID ≠ habitID) ∧
      (∀ c ∈ (DeleteHabit db0 habitID).2.habit_completions, c.HabitID ≠ habitID) ∧
      selectStreak (DeleteHabit db0 habitID).2 habitID = none ∧
      UncompleteHabit (DeleteHabit db0 habitID).2 habitID today
        = (none, (DeleteHabit db0 habitID).2)) := by
  have key : ∀ d : DB, (∀ c ∈ d.habit_completions, c.HabitID ≠ habitID) →
      UncompleteHabit d habitID today = (none, d) := by
    intro d hd
    apply uncompleteHabit_of_not_completed
    intro hmem
    exact hd _ hmem rfl
  refine ⟨key db hno, fun db0 => ?_⟩
  have hc : ∀ c ∈ (DeleteHabit db0 habitID).2.habit_completions, c.HabitID ≠ habitID := by
    intro c hc
    have := (List.mem_filter.1 hc).2
    simpa using this
  refine ⟨rfl, ?_, hc, ?_, key _ hc⟩
  · intro h hh
    have := (List.mem_filter.1 hh).2
    simpa using this
  · unfold selectStreak
    rw [List.find?_eq_none]
    intro s hs
    have := (List.mem_filter.1 hs).2
    simpa using this

theorem UncompleteHabit_unknown_habit_witness :
    (∀ c ∈ twoRunsDB.habit_completions, c.HabitID ≠ 2) ∧
    UncompleteHabit twoRunsDB 2 7 = (none, twoRunsDB) ∧
    selectStreak (DeleteHabit twoRunsDB 2).2 2 = none :=
  ⟨by decide,
    (UncompleteHabit_unknown_habit twoRunsDB 2 7 (by decide)).1,
    ((UncompleteHabit_unknown_habit twoRunsDB 2 7 (by decide)).2 twoRunsDB).2.2.2.1⟩

/-! ## Runs of consecutive days -/

theorem dayRun_succ (a : Int) (n : Nat) : dayRun a (n + 1) = dayRun a n ++ [a + (n : Int)] := by
  simp [dayRun, List.range_succ]

theorem mem_dayRun (a d : Int) (n : Nat) : d ∈ dayRun a n ↔ a ≤ d ∧ d < a + (n : Int) := by
  unfold dayRun
  simp only [List.mem_map, List.mem_range]
  constructor
  · rintro ⟨i, hi, rfl⟩
    omega
  · rintro ⟨h1, h2⟩
    refine ⟨(d - a).toNat, ?_, ?_⟩ <;> omega

theorem dayRun_sorted (a : Int) (n : Nat) : (dayRun a n).Sorted (· < ·) := by
  induction n with
  | zero => simp [dayRun]
  | succ n ih =>
    rw [dayRun_succ]
    refine List.pairwise_append.2 ⟨ih, List.pairwise_singleton _ _, ?_⟩
    intro x hx y hy
    rw [mem_dayRun] at hx
    rw [List.mem_singleton] at hy
    omega

theorem runs_dayRun (a : Int) (n : Nat) :
    ∃ r, runs (dayRun a (n + 1)) = [(a + (n : Int)) :: r] ∧ r.length = n := by
  induction n with
  | zero => exact ⟨[], by simp [dayRun, runs, pushDay, List.range_succ], rfl⟩
  | succ n ih =>
    obtain ⟨r, hr, hlen⟩ := ih
    refine ⟨(a + (n : Int)) :: r, ?_, by simp [hlen]⟩
    rw [dayRun_succ, runs_snoc, hr]
    have : ¬ (a + ((n + 1 : Nat) : Int) - (a + (n : Int)) > 1) := by omega
    simp only [pushDay, if_neg this]

theorem longestRun_dayRun (a : Int) (n : Nat) : longestRun (dayRun a n) = n := by
  cases n with
  | zero => simp [dayRun, longestRun, runs]
  | succ n =>
    obtain ⟨r, hr, hlen⟩ := runs_dayRun a n
    simp [longestRun, hr, hlen]

theorem currentRun_dayRun (a : Int) (n : Nat) : currentRun (dayRun a n) = n := by
  cases n with
  | zero => simp [dayRun, currentRun, runs]
  | succ n =>
    obtain ⟨r, hr, hlen⟩ := runs_dayRun a n
    simp [currentRun, hr, hlen]

theorem max_streak_dayRun (a : Int) (n : Nat) : max_streak (dayRun a n) = n := by
  rw [max_streak_of_sorted _ (dayRun_sorted a n), longestRun_dayRun]

theorem dayRun_filter_last (a : Int) (n : Nat) :
    ((dayRun a (n + 1)).filter fun d => d ≠ a + (n : Int)) = dayRun a n := by
  rw [dayRun_succ, List.filter_append]
  have h1 : ((dayRun a n).filter fun d => d ≠ a + (n : Int)) = dayRun a n := by
    rw [List.filter_eq_self]
    intro d hd
    rw [mem_dayRun] at hd
    simp only [ne_eq, decide_eq_true_eq]
    omega
  rw [h1]
  simp

/-! ## Call sequences without a skipped day -/

theorem completionDates_eq_of_completions {db1 db2 : DB} (habitID : Int)
    (h : db1.habit_completions = db2.habit_completions) :
    completionDates db1 habitID = completionDates db2 habitID := by
  unfold completionDates
  rw [h]

theorem completeHabit_dates (db : DB) (habitID today : Int)
    (hnew : (⟨habitID, today⟩ : HabitCompletion) ∉ db.habit_completions) :
    completionDates (CompleteHabit db habitID today).2 habitID
      = completionDates db habitID ++ [today] := by
  rw [completeHabit_of_not_completed db habitID today hnew]
  exact completionDates_insert db habitID today _

theorem oneRun_call (db : DB) (habitID today : Int) (op : Op)
    (hinv : OneRun db habitID)
    (hle : ∀ d ∈ completionDates db habitID, d ≤ today)
    (hday : op = Op.complete → today ∉ completionDates db habitID →
      completionDates db habitID = [] ∨ today - 1 ∈ completionDates db habitID) :
    OneRun (call db ⟨op, habitID, today⟩) habitID := by
  obtain ⟨s, a, n, hs, hdates, hc, hl⟩ := hinv
  by_cases hmem : (⟨habitID, today⟩ : HabitCompletion) ∈ db.habit_completions
  · cases op with
    | complete =>
      show OneRun (CompleteHabit db habitID today).2 habitID
      rw [completeHabit_of_completed db habitID today hmem]
      exact ⟨s, a, n, hs, hdates, hc, hl⟩
    | uncomplete =>
      show OneRun (UncompleteHabit db habitID today).2 habitID
      obtain ⟨-, -, e3, e4⟩ := uncompleteHabit_spec db habitID today s hs hmem
      have htd : today ∈ dayRun a n := by
        rw [← hdates, mem_completionDates]; exact hmem
      have hle' : ∀ d ∈ dayRun a n, d ≤ today := by rw [← hdates]; exact hle
      cases n with
      | zero => simp [dayRun] at htd
      | succ m =>
        have hlast : a + (m : Int) ∈ dayRun a (m + 1) := by
          rw [mem_dayRun]; push_cast; omega
        have h1 := hle' _ hlast
        rw [mem_dayRun] at htd
        have ht : today = a + (m : Int) := by push_cast at htd; omega
        subst ht
        rw [hdates, dayRun_filter_last] at e3 e4
        refine ⟨_, a, m, e4, e3, ?_, ?_⟩
        · simp only [hc]; push_cast; omega
        · have htrig : s.CurrentStreak = s.LongestStreak ∧ s.CurrentStreak > 0 := by
            rw [hc, hl]; push_cast; omega
          simp only [if_pos htrig, max_streak_dayRun]
  · have hnd : today ∉ completionDates db habitID := by
      rw [mem_completionDates]; exact hmem
    cases op with
    | uncomplete =>
      show OneRun (UncompleteHabit db habitID today).2 habitID
      rw [uncompleteHabit_of_not_completed db habitID today hmem]
      exact ⟨s, a, n, hs, hdates, hc, hl⟩
    | complete =>
      show OneRun (CompleteHabit db habitID today).2 habitID
      obtain ⟨-, -, hs'⟩ := completeHabit_spec db habitID today s hs hmem
      have hd' := completeHabit_dates db habitID today hmem
      cases n with
      | zero =>
        refine ⟨_, today, 1, hs', ?_, ?_, ?_⟩
        · rw [hd', hdates]; simp [dayRun, List.range_succ]
        · simp only [hc]; simp
        · simp only [hl, hc]; simp
      | succ m =>
        have hne : completionDates db habitID ≠ [] := by
          rw [hdates, dayRun_succ]; simp
        have hprev : today - 1 ∈ dayRun a (m + 1) := by
          rw [← hdates]
          exact (hday rfl hnd).resolve_left hne
        have hlast : a + (m : Int) ∈ dayRun a (m + 1) := by
          rw [mem_dayRun]; push_cast; omega
        have h1 : a + (m : Int) ≤ today := hle _ (by rw [hdates]; exact hlast)
        rw [hdates, mem_dayRun] at hnd
        rw [mem_dayRun] at hprev
        have ht : today = a + ((m + 1 : Nat) : Int) := by
          push_cast at hnd hprev ⊢; omega
        refine ⟨_, a, m + 1 + 1, hs', ?_, ?_, ?_⟩
        · rw [hd', hdates, ht, ← dayRun_succ]
        · simp only [hc]; push_cast; ring
        · simp only [hl, hc]; push_cast; omega

theorem runOn_cons (db : DB) (habitID : Int) (o : Op × Int) (ops : List (Op × Int)) :
    runOn db habitID (o :: ops) = runOn (call db ⟨o.1, habitID, o.2⟩) habitID ops := by
  simp [runOn, runCalls]

theorem oneRun_runOn (habitID : Int) (ops : List (Op × Int)) (db : DB)
    (hinv : OneRun db habitID) (hd : noDaySkipped habitID db ops = true) :
    OneRun (runOn db habitID ops) habitID := by
  induction ops generalizing db with
  | nil => exact hinv
  | cons o ops ih =>
    obtain ⟨op, today⟩ := o
    rw [runOn_cons]
    simp only [noDaySkipped, Bool.and_eq_true, List.all_eq_true, decide_eq_true_eq,
      Bool.or_eq_true, bne_iff_ne, ne_eq] at hd
    obtain ⟨⟨hle, hday⟩, hrest⟩ := hd
    refine ih _ (oneRun_call db habitID today op hinv hle ?_) hrest
    intro hop hnd
    rcases hday with ((h | h) | h) | h
    · exact absurd hop h
    · exact absurd h hnd
    · exact Or.inl h
    · exact Or.inr h

theorem oneRun_of_newHabit (db : DB) (habitID : Int) (h : NewHabit db habitID) :
    OneRun db habitID := by
  obtain ⟨⟨s, hs, hc, hl⟩, hd⟩ := h
  exact ⟨s, 0, 0, hs, by rw [hd]; rfl, by simp [hc], by simp [hl]⟩

/-! ## The streak invariants -/

theorem newHabit_oneHabitDB : NewHabit oneHabitDB 1 :=
  ⟨⟨⟨1, 0, 0, none⟩, by decide, rfl, rfl⟩, by decide⟩

/-- C1 as stated fails: for a newly created habit, completing on days 1, 3 and 5 and
uncompleting on day 5 leaves `current_streak` 2 above `longest_streak` 1. -/
theorem current_le_longest_counterexample :
    selectStreak oneHabitDB 1 = some ⟨1, 0, 0, none⟩ ∧
    selectStreak
      (runOn oneHabitDB 1
        [(Op.complete, 1), (Op.complete, 3), (Op.complete, 5), (Op.uncomplete, 5)]) 1
      = some ⟨1, 2, 1, some 5⟩ ∧
    ¬ ((2 : Int) ≤ 1) := by
  decide

/-- C1, amended: for every habit created with both counters at zero and no completion
in the ledger, and every finite sequence of `CompleteHabit` / `UncompleteHabit` calls
on it in which no day is skipped (each call is made on a day no earlier than the
habit's completion days in the ledger, and each `CompleteHabit` call that records a
new completion finds the ledger without a completion of the habit or with one for the
day before), the resulting state satisfies `current_streak ≤ longest_streak`. -/
theorem current_le_longest (db : DB) (habitID : Int) (ops : List (Op × Int))
    (hnew : NewHabit db habitID) (hd : noDaySkipped habitID db ops = true) :
    ∃ s, selectStreak (runOn db habitID ops) habitID = some s ∧
      s.CurrentStreak ≤ s.LongestStreak := by
  obtain ⟨s, a, n, hs, -, hc, hl⟩ :=
    oneRun_runOn habitID ops db (oneRun_of_newHabit db habitID hnew) hd
  exact ⟨s, hs, by rw [hc, hl]⟩

theorem current_le_longest_witness :
    NewHabit oneHabitDB 1 ∧
    noDaySkipped 1 oneHabitDB
      [(Op.complete, 1), (Op.complete, 2), (Op.complete, 3), (Op.uncomplete, 3)] = true ∧
    ∃ s, selectStreak
        (runOn oneHabitDB 1
          [(Op.complete, 1), (Op.complete, 2), (Op.complete, 3), (Op.uncomplete, 3)]) 1
        = some s ∧ s.CurrentStreak ≤ s.LongestStreak :=
  ⟨newHabit_oneHabitDB, by decide,
    current_le_longest oneHabitDB 1
      [(Op.complete, 1), (Op.complete, 2), (Op.complete, 3), (Op.uncomplete, 3)]
      newHabit_oneHabitDB (by decide)⟩

/-- C7 as stated fails: for a newly created habit, completing on day 1 and on day 3
gives `current_streak` 2, while the run of consecutive days that ends at the latest
completion day, day 3, has length 1. -/
theorem current_is_last_run_counterexample :
    selectStreak oneHabitDB 1 = some ⟨1, 0, 0, none⟩ ∧
    selectStreak (runOn oneHabitDB 1 [(Op.complete, 1), (Op.complete, 3)]) 1
      = some ⟨1, 2, 2, some 3⟩ ∧
    history (runOn oneHabitDB 1 [(Op.complete, 1), (Op.complete, 3)]) 1 = [1, 3] ∧
    currentRun (history (runOn oneHabitDB 1 [(Op.complete, 1), (Op.complete, 3)]) 1) = 1 := by
  decide

/-- C7, amended: for every state reached from a newly created habit by a finite
sequence of `CompleteHabit` / `UncompleteHabit` calls in which no day is skipped (each
call is made on a day no earlier than the habit's completion days in the ledger, and
each `CompleteHabit` call that records a new completion finds the ledger without a
completion of the habit or with one for the day before), `current_streak` is the length
of the maximal run of consecutive days of the habit's ledger that ends at the most
recent completion day, 0 when the ledger is empty. -/
theorem current_is_last_run (db : DB) (habitID : Int) (ops : List (Op × Int))
    (hnew : NewHabit db habitID) (hd : noDaySkipped habitID db ops = true) :
    ∃ s, selectStreak (runOn db habitID ops) habitID = some s ∧
      s.CurrentStreak = (currentRun (history (runOn db habitID ops) habitID) : Int) := by
  obtain ⟨s, a, n, hs, hdates, hc, -⟩ :=
    oneRun_runOn habitID ops db (oneRun_of_newHabit db habitID hnew) hd
  refine ⟨s, hs, ?_⟩
  unfold history
  rw [hc, hdates, List.Sorted.insertionSort_eq (dayRun_sorted a n).le_of_lt,
    currentRun_dayRun]

theorem current_is_last_run_witness :
    NewHabit oneHabitDB 1 ∧
    noDaySkipped 1 oneHabitDB
      [(Op.complete, 4), (Op.complete, 5), (Op.uncomplete, 5), (Op.complete, 5),
        (Op.complete, 6)] = true ∧
    ∃ s, selectStreak
        (runOn oneHabitDB 1
          [(Op.complete, 4), (Op.complete, 5), (Op.uncomplete, 5), (Op.complete, 5),
            (Op.complete, 6)]) 1 = some s ∧
      s.CurrentStreak =
        (currentRun (history (runOn oneHabitDB 1
          [(Op.complete, 4), (Op.complete, 5), (Op.uncomplete, 5), (Op.complete, 5),
            (Op.complete, 6)]) 1) : Int) :=
  ⟨newHabit_oneHabitDB, by decide,
    current_is_last_run oneHabitDB 1
      [(Op.complete, 4), (Op.complete, 5), (Op.uncomplete, 5), (Op.complete, 5),
        (Op.complete, 6)]
      newHabit_oneHabitDB (by decide)⟩

/-! ## The last day of a run -/

theorem longestRun_snoc (l : List Int) (d : Int) :
    longestRun (l ++ [d]) = max (longestRun l) (currentRun (l ++ [d])) := by
  unfold longestRun currentRun
  rw [runs_snoc]
  rcases runs l with _ | ⟨r, rs⟩
  · simp [pushDay]
  · rcases r with _ | ⟨p, r⟩
    · simp [pushDay]
      omega
    · by_cases hgap : d - p > 1
      · simp [pushDay, hgap]
      · simp [pushDay, hgap]
        omega

theorem sort_eq_snoc_of_max (dates : List Int) (today : Int) (hn : dates.Nodup)
    (hmem : today ∈ dates) (hle : ∀ d ∈ dates, d ≤ today) :
    dates.insertionSort (· ≤ ·)
      = (dates.filter fun d => d ≠ today).insertionSort (· ≤ ·) ++ [today] := by
  apply List.eq_of_perm_of_sorted (r := (· ≤ ·))
  · have h1 : dates.Perm (today :: dates.erase today) := List.perm_cons_erase hmem
    have h2 : dates.erase today = dates.filter fun d => d ≠ today := by
      rw [hn.erase_eq_filter]
      apply List.filter_congr
      intro x _
      by_cases hx : x = today <;> simp [hx]
    rw [h2] at h1
    refine (List.perm_insertionSort _ _).trans (h1.trans ?_)
    refine List.Perm.trans ?_ (List.perm_append_singleton _ _).symm
    exact List.Perm.cons _ (List.perm_insertionSort _ _).symm
  · exact List.sorted_insertionSort _ _
  · refine List.pairwise_append.2 ⟨List.sorted_insertionSort _ _, List.pairwise_singleton _ _, ?_⟩
    intro x hx y hy
    rw [List.mem_singleton] at hy
    subst hy
    have := (List.perm_insertionSort (· ≤ ·) _).mem_iff.1 hx
    exact hle x (List.mem_of_mem_filter this)

/-! ## Storage failures -/

theorem completeHabitFaulty_none (db : DB) (habitID today : Int) :
    CompleteHabitFaulty none db habitID today = liftResult (CompleteHabit db habitID today) := by
  unfold CompleteHabitFaulty CompleteHabit UpdateHabitStreakFaulty
  by_cases h : IsHabitCompletedToday db habitID today = true
  · simp [h, liftResult]
  · simp [h]

theorem updateHabitStreakOnUncompleteFaulty_none (db : DB) (habitID : Int) :
    UpdateHabitStreakOnUncompleteFaulty none db habitID
      = liftResult (UpdateHabitStreakOnUncomplete db habitID) := by
  unfold UpdateHabitStreakOnUncompleteFaulty UpdateHabitStreakOnUncomplete
  cases selectStreak db habitID with
  | none => simp [liftResult]
  | some row =>
    simp only [liftResult, reduceCtorEq, if_false]
    split_ifs <;> rfl

theorem uncompleteHabitFaulty_none (db : DB) (habitID today : Int) :
    UncompleteHabitFaulty none db habitID today
      = liftResult (UncompleteHabit db habitID today) := by
  unfold UncompleteHabitFaulty UncompleteHabit
  by_cases h : IsHabitCompletedToday db habitID today = true
  · simp [h, updateHabitStreakOnUncompleteFaulty_none]
  · simp [h, liftResult]

theorem updateHabitStreakOnUncompleteFaulty_storage (k : Nat) (db : DB) (habitID : Int)
    (hk : 2 ≤ k)
    (herr : (UpdateHabitStreakOnUncompleteFaulty (some k) db habitID).1
      = some Failure.StorageError) :
    (UpdateHabitStreakOnUncompleteFaulty (some k) db habitID).2.habit_completions
      = db.habit_completions ∧
    (k ≤ 3 → (UpdateHabitStreakOnUncompleteFaulty (some k) db habitID).2 = db) ∧
    (4 ≤ k → ∀ s, selectStreak db habitID = some s →
      selectStreak (UpdateHabitStreakOnUncompleteFaulty (some k) db habitID).2 habitID
        = some { s with CurrentStreak := max (s.CurrentStreak - 1) 0 }) := by
  unfold UpdateHabitStreakOnUncompleteFaulty at herr ⊢
  by_cases h2 : k = 2
  · subst h2
    simp
  · have h2' : ¬ (some k = some 2) := fun h => h2 (Option.some.inj h)
    rw [if_neg h2'] at herr ⊢
    cases hs : selectStreak db habitID with
    | none => rw [hs] at herr; simp at herr
    | some row =>
      rw [hs] at herr
      have hmax : (if row.CurrentStreak - 1 < 0 then 0 else row.CurrentStreak - 1)
          = max (row.CurrentStreak - 1) 0 := by
        split <;> omega
      have h1 := selectStreak_setCurrentStreak db habitID (max (row.CurrentStreak - 1) 0) row hs
      simp only [hmax] at herr ⊢
      by_cases h3 : k = 3
      · subst h3
        simp
      · have h3' : ¬ (some k = some 3) := fun h => h3 (Option.some.inj h)
        rw [if_neg h3'] at herr ⊢
        by_cases ht : row.CurrentStreak = row.LongestStreak ∧ row.CurrentStreak > 0
        · rw [if_pos ht] at herr ⊢
          by_cases h4 : k = 4
          · subst h4
            simp only [if_true]
            refine ⟨rfl, fun h => absurd h (by omega), fun _ s hs' => ?_⟩
            obtain rfl := Option.some.inj hs'
            exact h1
          · have h4' : ¬ (some k = some 4) := fun h => h4 (Option.some.inj h)
            rw [if_neg h4'] at herr ⊢
            by_cases hne : (max_streak (completionDates
                (setCurrentStreak db habitID (max (row.CurrentStreak - 1) 0)) habitID) : Int)
                ≠ row.LongestStreak
            · rw [if_pos hne] at herr ⊢
              by_cases h5 : k = 5
              · subst h5
                simp only [if_true]
                refine ⟨rfl, fun h => absurd h (by omega), fun _ s hs' => ?_⟩
                obtain rfl := Option.some.inj hs'
                exact h1
              · have h5' : ¬ (some k = some 5) := fun h => h5 (Option.some.inj h)
                rw [if_neg h5'] at herr
                simp at herr
            · rw [if_neg hne] at herr
              simp at herr
        · rw [if_neg ht] at herr
          simp at herr

/-- C11 as stated fails: when the counter update of `CompleteHabit` fails, the call
returns the error with today's event already in the ledger and the counters as before;
when the `current_streak` update of `UncompleteHabit` fails, today's event is already
gone from the ledger and the counters are as before. -/
theorem all_or_nothing_counterexample :
    oneHabitDB.habit_completions = [] ∧
    (CompleteHabitFaulty (some 2) oneHabitDB 1 1).1 = some Failure.StorageError ∧
    (CompleteHabitFaulty (some 2) oneHabitDB 1 1).2.habit_completions = [⟨1, 1⟩] ∧
    selectStreak (CompleteHabitFaulty (some 2) oneHabitDB 1 1).2 1 = some ⟨1, 0, 0, none⟩ ∧
    twoRunsDB.habit_completions = [⟨1, 1⟩, ⟨1, 2⟩, ⟨1, 3⟩, ⟨1, 6⟩, ⟨1, 7⟩] ∧
    (UncompleteHabitFaulty (some 3) twoRunsDB 1 7).1 = some Failure.StorageError ∧
    (UncompleteHabitFaulty (some 3) twoRunsDB 1 7).2.habit_completions
      = [⟨1, 1⟩, ⟨1, 2⟩, ⟨1, 3⟩, ⟨1, 6⟩] ∧
    selectStreak (UncompleteHabitFaulty (some 3) twoRunsDB 1 7).2 1
      = some ⟨1, 3, 3, some 7⟩ := by
  decide

/-- C11, amended: a failing storage step makes `CompleteHabit` and `UncompleteHabit`
return that error. When the failing step is the existence check or the ledger insert
or delete, the database (ledger and counters) is as before the call. When it is a
later step, what the steps before it wrote stays: for `CompleteHabit` the ledger holds
today's event and the counters are as before; for `UncompleteHabit` today's event is
gone from the ledger, the counters are as before when the counter read or the
`current_streak` update fails, and `current_streak` is already lowered, with
`longest_streak` as before, when the recomputation query or the `longest_streak`
update fails. Without a failing step the calls are `CompleteHabit` and
`UncompleteHabit`. -/
theorem storage_failure (db : DB) (habitID today : Int) :
    (CompleteHabitFaulty none db habitID today = liftResult (CompleteHabit db habitID today) ∧
      UncompleteHabitFaulty none db habitID today
        = liftResult (UncompleteHabit db habitID today)) ∧
    (CompleteHabitFaulty (some 0) db habitID today = (some Failure.StorageError, db) ∧
      UncompleteHabitFaulty (some 0) db habitID today = (some Failure.StorageError, db)) ∧
    ((⟨habitID, today⟩ : HabitCompletion) ∉ db.habit_completions →
      CompleteHabitFaulty (some 1) db habitID today = (some Failure.StorageError, db) ∧
      CompleteHabitFaulty (some 2) db habitID today
        = (some Failure.StorageError,
            { db with habit_completions := db.habit_completions ++ [⟨habitID, today⟩] })) ∧
    ((⟨habitID, today⟩ : HabitCompletion) ∈ db.habit_completions →
      UncompleteHabitFaulty (some 1) db habitID today = (some Failure.StorageError, db) ∧
      UncompleteHabitFaulty (some 2) db habitID today
        = (some Failure.StorageError,
            { db with habit_completions := db.habit_completions.filter fun c =>
                c ≠ ⟨habitID, today⟩ }) ∧
      ∀ k : Nat, 2 ≤ k →
        (UncompleteHabitFaulty (some k) db habitID today).1 = some Failure.StorageError →
        (UncompleteHabitFaulty (some k) db habitID today).2.habit_completions
          = (db.habit_completions.filter fun c => c ≠ ⟨habitID, today⟩) ∧
        (k ≤ 3 →
          (UncompleteHabitFaulty (some k) db habitID today).2.habit_streaks
            = db.habit_streaks) ∧
        (4 ≤ k → ∀ s, selectStreak db habitID = some s →
          selectStreak (UncompleteHabitFaulty (some k) db habitID today).2 habitID
            = some { s with CurrentStreak := max (s.CurrentStreak - 1) 0 })) := by
  refine ⟨⟨completeHabitFaulty_none db habitID today,
    uncompleteHabitFaulty_none db habitID today⟩, ⟨?_, ?_⟩, ?_, ?_⟩
  · simp [CompleteHabitFaulty]
  · simp [UncompleteHabitFaulty]
  · intro hnew
    have hc := isHabitCompletedToday_false hnew
    constructor
    · simp [CompleteHabitFaulty, hc]
    · simp [CompleteHabitFaulty, UpdateHabitStreakFaulty, hc]
  · intro hmem
    have hc := (isHabitCompletedToday_iff db habitID today).2 hmem
    refine ⟨?_, ?_, ?_⟩
    · simp [UncompleteHabitFaulty, hc]
    · simp only [UncompleteHabitFaulty, hc, UpdateHabitStreakOnUncompleteFaulty,
        ← filter_ne_completion]
      simp
    · intro k hk herr
      have hk0 : ¬ (some k = some 0) := fun h => by have := Option.some.inj h; omega
      have hk1 : ¬ (some k = some 1) := fun h => by have := Option.some.inj h; omega
      have e : UncompleteHabitFaulty (some k) db habitID today
          = UpdateHabitStreakOnUncompleteFaulty (some k)
              { db with habit_completions := db.habit_completions.filter fun c =>
                  ¬ (c.HabitID = habitID ∧ c.CompletedAt = today) } habitID := by
        unfold UncompleteHabitFaulty
        rw [if_neg hk0, hc, if_neg hk1]
        rfl
      rw [e] at herr ⊢
      obtain ⟨a1, a2, a3⟩ := updateHabitStreakOnUncompleteFaulty_storage k _ habitID hk herr
      refine ⟨?_, ?_, ?_⟩
      · rw [a1]; exact filter_ne_completion _ _ _
      · intro h3; rw [a2 h3]
      · intro h4 s hs; exact a3 h4 s hs

theorem storage_failure_witness :
    (⟨1, 7⟩ : HabitCompletion) ∈ twoRunsDB.habit_completions ∧
    (UncompleteHabitFaulty (some 4) twoRunsDB 1 7).1 = some Failure.StorageError ∧
    selectStreak twoRunsDB 1 = some ⟨1, 3, 3, some 7⟩ ∧
    selectStreak (UncompleteHabitFaulty (some 4) twoRunsDB 1 7).2 1
      = some ⟨1, max (3 - 1) 0, 3, some 7⟩ ∧
    (⟨1, 9⟩ : HabitCompletion) ∉ twoRunsDB.habit_completions ∧
    CompleteHabitFaulty (some 1) twoRunsDB 1 9 = (some Failure.StorageError, twoRunsDB) :=
  ⟨by decide, by decide, by decide,
    (((storage_failure twoRunsDB 1 7).2.2.2 (by decide)).2.2 4 (by decide) (by decide)).2.2
      (by decide) ⟨1, 3, 3, some 7⟩ (by decide),
    by decide,
    ((storage_failure twoRunsDB 1 9).2.2.1 (by decide)).1⟩

/-! ## The counters count the ledger -/

theorem keysFrom_length (l : List Int) (i : Nat) : (keysFrom i l).length = l.length := by
  induction l generalizing i with
  | nil => rfl
  | cons a l ih => simp [keysFrom, ih]

theorem max_streak_le_length (dates : List Int) : max_streak dates ≤ dates.length := by
  rw [max_streak_eq_maxCount, maxCount_le_iff]
  intro k
  calc (keysFrom 0 (dates.insertionSort (· ≤ ·))).count k
      ≤ (keysFrom 0 (dates.insertionSort (· ≤ ·))).length := List.count_le_length _ _
    _ = dates.length := by rw [keysFrom_length, List.length_insertionSort]

theorem length_filter_ne (dates : List Int) (today : Int) (hn : dates.Nodup)
    (hmem : today ∈ dates) :
    (dates.filter fun d => d ≠ today).length + 1 = dates.length := by
  have h1 : dates.Perm (today :: dates.erase today) := List.perm_cons_erase hmem
  have h2 : dates.erase today = dates.filter fun d => d ≠ today := by
    rw [hn.erase_eq_filter]
    apply List.filter_congr
    intro x _
    by_cases hx : x = today <;> simp [hx]
  rw [h2] at h1
  rw [h1.length_eq, List.length_cons]

theorem counted_call (db : DB) (habitID today : Int) (op : Op)
    (hinv : Counted db habitID) : Counted (call db ⟨op, habitID, today⟩) habitID := by
  obtain ⟨s, hs, hn, hc, hl⟩ := hinv
  by_cases hmem : (⟨habitID, today⟩ : HabitCompletion) ∈ db.habit_completions
  · cases op with
    | complete =>
      show Counted (CompleteHabit db habitID today).2 habitID
      rw [completeHabit_of_completed db habitID today hmem]
      exact ⟨s, hs, hn, hc, hl⟩
    | uncomplete =>
      show Counted (UncompleteHabit db habitID today).2 habitID
      obtain ⟨-, -, e3, e4⟩ := uncompleteHabit_spec db habitID today s hs hmem
      have hlen := length_filter_ne (completionDates db habitID) today hn
        ((mem_completionDates db habitID today).2 hmem)
      have hle := max_streak_le_length ((completionDates db habitID).filter fun d => d ≠ today)
      refine ⟨_, e4, ?_, ?_, ?_⟩
      · rw [e3]; exact hn.filter _
      · rw [e3]
        simp only
        omega
      · simp only
        split_ifs with ht
        · omega
        · have : ¬ (s.CurrentStreak = s.LongestStreak) := fun h => ht ⟨h, by omega⟩
          omega
  · cases op with
    | uncomplete =>
      show Counted (UncompleteHabit db habitID today).2 habitID
      rw [uncompleteHabit_of_not_completed db habitID today hmem]
      exact ⟨s, hs, hn, hc, hl⟩
    | complete =>
      show Counted (CompleteHabit db habitID today).2 habitID
      obtain ⟨-, -, hs'⟩ := completeHabit_spec db habitID today s hs hmem
      have hd' := completeHabit_dates db habitID today hmem
      have hnd : today ∉ completionDates db habitID := by
        rw [mem_completionDates]; exact hmem
      refine ⟨_, hs', ?_, ?_, ?_⟩
      · rw [hd']
        refine List.nodup_append.2 ⟨hn, List.nodup_singleton _, ?_⟩
        intro a ha hb
        rw [List.mem_singleton] at hb
        exact hnd (hb ▸ ha)
      · rw [hd']
        simp only [List.length_append, List.length_singleton]
        push_cast
        omega
      · simp only
        omega

theorem counted_runOn (habitID : Int) (ops : List (Op × Int)) (db : DB)
    (hinv : Counted db habitID) : Counted (runOn db habitID ops) habitID := by
  induction ops generalizing db with
  | nil => exact hinv
  | cons o ops ih =>
    rw [runOn_cons]
    exact ih _ (counted_call db habitID o.2 o.1 hinv)

theorem counted_of_newHabit (db : DB) (habitID : Int) (h : NewHabit db habitID) :
    Counted db habitID := by
  obtain ⟨⟨s, hs, hc, hl⟩, hd⟩ := h
  exact ⟨s, hs, by rw [hd]; exact List.nodup_nil, by rw [hd, hc]; rfl, by rw [hc, hl]⟩

/-- C12: for every habit created with both counters at zero and an empty ledger, and
every finite sequence of `CompleteHabit` / `UncompleteHabit` calls on it, made on any
days, `current_streak` is the number of completion events the ledger holds for the
habit; so whenever today's completion is in the ledger, `current_streak - 1` is not
negative and `UncompleteHabit` does not take its clamp at 0. -/
theorem current_counts_events (db : DB) (habitID : Int) (ops : List (Op × Int))
    (hnew : NewHabit db habitID) :
    ∃ s, selectStreak (runOn db habitID ops) habitID = some s ∧
      s.CurrentStreak =
        (((runOn db habitID ops).habit_completions.filter fun c =>
          c.HabitID = habitID).length : Int) ∧
      ∀ today : Int,
        (⟨habitID, today⟩ : HabitCompletion) ∈ (runOn db habitID ops).habit_completions →
        ¬ (s.CurrentStreak - 1 < 0) := by
  obtain ⟨s, hs, -, hc, -⟩ :=
    counted_runOn habitID ops db (counted_of_newHabit db habitID hnew)
  have hlen : (completionDates (runOn db habitID ops) habitID).length
      = ((runOn db habitID ops).habit_completions.filter fun c =>
          c.HabitID = habitID).length := by
    unfold completionDates
    rw [List.length_map]
  refine ⟨s, hs, by rw [hc, hlen], ?_⟩
  intro today hmem
  have hpos : 0 < (completionDates (runOn db habitID ops) habitID).length :=
    List.length_pos_of_mem ((mem_completionDates _ habitID today).2 hmem)
  omega

theorem current_counts_events_witness :
    NewHabit oneHabitDB 1 ∧
    ∃ s, selectStreak
        (runOn oneHabitDB 1 [(Op.complete, 1), (Op.complete, 5), (Op.complete, 9),
          (Op.uncomplete, 9), (Op.uncomplete, 3)]) 1 = some s ∧
      s.CurrentStreak =
        (((runOn oneHabitDB 1 [(Op.complete, 1), (Op.complete, 5), (Op.complete, 9),
          (Op.uncomplete, 9), (Op.uncomplete, 3)]).habit_completions.filter fun c =>
            c.HabitID = 1).length : Int) ∧
      ∀ today : Int,
        (⟨1, today⟩ : HabitCompletion) ∈
          (runOn oneHabitDB 1 [(Op.complete, 1), (Op.complete, 5), (Op.complete, 9),
            (Op.uncomplete, 9), (Op.uncomplete, 3)]).habit_completions →
        ¬ (s.CurrentStreak - 1 < 0) :=
  ⟨newHabit_oneHabitDB,
    current_counts_events oneHabitDB 1 [(Op.complete, 1), (Op.complete, 5),
      (Op.complete, 9), (Op.uncomplete, 9), (Op.uncomplete, 3)] newHabit_oneHabitDB⟩

/-- C13: for every habit created with both counters at zero and an empty ledger, and
every finite sequence of `CompleteHabit` / `UncompleteHabit` calls on it, made on any
days, the resulting state satisfies `longest_streak ≤ current_streak`, and a further
`CompleteHabit` call that records a new completion leaves the two counters equal. -/
theorem longest_le_current (db : DB) (habitID : Int) (ops : List (Op × Int))
    (hnew : NewHabit db habitID) :
    (∃ s, selectStreak (runOn db habitID ops) habitID = some s ∧
      s.LongestStreak ≤ s.CurrentStreak) ∧
    ∀ today : Int,
      (⟨habitID, today⟩ : HabitCompletion) ∉ (runOn db habitID ops).habit_completions →
      ∃ s', selectStreak (CompleteHabit (runOn db habitID ops) habitID today).2 habitID
          = some s' ∧ s'.LongestStreak = s'.CurrentStreak := by
  obtain ⟨s, hs, -, -, hl⟩ :=
    counted_runOn habitID ops db (counted_of_newHabit db habitID hnew)
  refine ⟨⟨s, hs, hl⟩, ?_⟩
  intro today hnot
  obtain ⟨-, -, hs'⟩ := completeHabit_spec _ habitID today s hs hnot
  refine ⟨_, hs', ?_⟩
  simp only
  omega

theorem longest_le_current_witness :
    NewHabit oneHabitDB 1 ∧
    (∃ s, selectStreak
        (runOn oneHabitDB 1 [(Op.complete, 1), (Op.complete, 3), (Op.complete, 5),
          (Op.uncomplete, 5)]) 1 = some s ∧ s.LongestStreak ≤ s.CurrentStreak) ∧
    ∀ today : Int,
      (⟨1, today⟩ : HabitCompletion) ∉
        (runOn oneHabitDB 1 [(Op.complete, 1), (Op.complete, 3), (Op.complete, 5),
          (Op.uncomplete, 5)]).habit_completions →
      ∃ s', selectStreak
          (CompleteHabit
            (runOn oneHabitDB 1 [(Op.complete, 1), (Op.complete, 3), (Op.complete, 5),
              (Op.uncomplete, 5)]) 1 today).2 1 = some s' ∧
        s'.LongestStreak = s'.CurrentStreak :=
  ⟨newHabit_oneHabitDB,
    longest_le_current oneHabitDB 1 [(Op.complete, 1), (Op.complete, 3), (Op.complete, 5),
      (Op.uncomplete, 5)] newHabit_oneHabitDB⟩

/-! ## Skipping the recomputation -/

theorem updateHabitStreakOnUncomplete_eq_always (db : DB) (habitID : Int) (s : HabitStreak)
    (hs : selectStreak db habitID = some s)
    (ht : s.CurrentStreak = s.LongestStreak ∧ s.CurrentStreak > 0) :
    UpdateHabitStreakOnUncomplete db habitID
      = UpdateHabitStreakOnUncompleteAlways db habitID := by
  unfold UpdateHabitStreakOnUncomplete UpdateHabitStreakOnUncompleteAlways
  rw [hs]
  simp only [if_pos ht]

theorem upToDate_call (db : DB) (habitID T today : Int) (op : Op)
    (hJ : UpToDate db habitID T) (hT : T ≤ today) :
    UpToDate (call db ⟨op, habitID, today⟩) habitID today := by
  obtain ⟨hcount, hle, heq⟩ := hJ
  refine ⟨counted_call db habitID today op hcount, ?_⟩
  obtain ⟨s, hs, hn, hc, hl⟩ := hcount
  by_cases hmem : (⟨habitID, today⟩ : HabitCompletion) ∈ db.habit_completions
  · have htd : today ∈ completionDates db habitID :=
      (mem_completionDates db habitID today).2 hmem
    have hTeq : today = T := le_antisymm (hle _ htd) hT
    cases op with
    | complete =>
      show (∀ d ∈ completionDates (CompleteHabit db habitID today).2 habitID, d ≤ today) ∧
        (today ∈ completionDates (CompleteHabit db habitID today).2 habitID →
          ∃ s, selectStreak (CompleteHabit db habitID today).2 habitID = some s ∧
            s.CurrentStreak = s.LongestStreak)
      rw [completeHabit_of_completed db habitID today hmem]
      refine ⟨fun d hd => le_trans (hle d hd) hT, fun _ => ?_⟩
      exact heq (hTeq ▸ htd)
    | uncomplete =>
      show (∀ d ∈ completionDates (UncompleteHabit db habitID today).2 habitID, d ≤ today) ∧
        (today ∈ completionDates (UncompleteHabit db habitID today).2 habitID →
          ∃ s, selectStreak (UncompleteHabit db habitID today).2 habitID = some s ∧
            s.CurrentStreak = s.LongestStreak)
      obtain ⟨-, -, e3, -⟩ := uncompleteHabit_spec db habitID today s hs hmem
      rw [e3]
      refine ⟨fun d hd => le_trans (hle d (List.mem_of_mem_filter hd)) hT, fun h => ?_⟩
      have := (List.mem_filter.1 h).2
      simp at this
  · have hnd : today ∉ completionDates db habitID := by
      rw [mem_completionDates]; exact hmem
    cases op with
    | uncomplete =>
      show (∀ d ∈ completionDates (UncompleteHabit db habitID today).2 habitID, d ≤ today) ∧
        (today ∈ completionDates (UncompleteHabit db habitID today).2 habitID →
          ∃ s, selectStreak (UncompleteHabit db habitID today).2 habitID = some s ∧
            s.CurrentStreak = s.LongestStreak)
      rw [uncompleteHabit_of_not_completed db habitID today hmem]
      exact ⟨fun d hd => le_trans (hle d hd) hT, fun h => absurd h hnd⟩
    | complete =>
      show (∀ d ∈ completionDates (CompleteHabit db habitID today).2 habitID, d ≤ today) ∧
        (today ∈ completionDates (CompleteHabit db habitID today).2 habitID →
          ∃ s, selectStreak (CompleteHabit db habitID today).2 habitID = some s ∧
            s.CurrentStreak = s.LongestStreak)
      obtain ⟨-, -, hs'⟩ := completeHabit_spec db habitID today s hs hmem
      rw [completeHabit_dates db habitID today hmem]
      refine ⟨?_, fun _ => ⟨_, hs', ?_⟩⟩
      · intro d hd
        rcases List.mem_append.1 hd with hd | hd
        · exact le_trans (hle d hd) hT
        · rw [List.mem_singleton] at hd
          exact le_of_eq hd
      · simp only
        omega

/-- With the clock never running backwards, whenever today's completion is in the
ledger the two counters are equal and positive, so that `UncompleteHabit` recomputes. -/
theorem trigger_of_forward_clock (habitID : Int) (ops : List (Op × Int)) (db : DB)
    (T today : Int) (hJ : UpToDate db habitID T)
    (hclock : (T :: (ops.map Prod.snd ++ [today])).Sorted (· ≤ ·))
    (hmem : today ∈ completionDates (runOn db habitID ops) habitID) :
    ∃ s, selectStreak (runOn db habitID ops) habitID = some s ∧
      (completionDates (runOn db habitID ops) habitID).Nodup ∧
      s.CurrentStreak = s.LongestStreak ∧ s.CurrentStreak > 0 := by
  induction ops generalizing db T with
  | nil =>
    have hT : T ≤ today := by
      have := List.rel_of_sorted_cons hclock today (by simp)
      exact this
    obtain ⟨⟨s, hs, hn, hc, hl⟩, hle, heq⟩ := hJ
    have hmem' : today ∈ completionDates db habitID := hmem
    have hTeq : today = T := le_antisymm (hle _ hmem') hT
    obtain ⟨s2, hs2, he2⟩ := heq (hTeq ▸ hmem')
    have hs' : selectStreak (runOn db habitID []) habitID = some s := hs
    obtain rfl : s = s2 := Option.some.inj (hs.symm.trans hs2)
    refine ⟨s, hs', hn, he2, ?_⟩
    have hpos : 0 < (completionDates db habitID).length := List.length_pos_of_mem hmem'
    omega
  | cons o ops ih =>
    rw [runOn_cons] at hmem ⊢
    have hT : T ≤ o.2 := List.rel_of_sorted_cons hclock o.2 (by simp)
    have hrest : (o.2 :: (ops.map Prod.snd ++ [today])).Sorted (· ≤ ·) := by
      have := List.Sorted.of_cons hclock
      simpa using this
    exact ih _ o.2 (upToDate_call db habitID T o.2 o.1 hJ hT) hrest hmem

/-- C8: in every state reached from a newly created habit by a finite sequence of
`CompleteHabit` / `UncompleteHabit` calls with the clock never running backwards
(today included), `UncompleteHabit` with its conditional recomputation returns what
`UncompleteHabit` that always recomputes returns, the same `longest_streak` included;
and when today's completion is in the ledger, the two counters are equal and positive
before the call, and after it the stored `longest_streak` is the length of the longest
run of consecutive days of the remaining ledger. -/
theorem skip_recomputation_sound (db : DB) (habitID today : Int) (ops : List (Op × Int))
    (hnew : NewHabit db habitID)
    (hclock : (ops.map Prod.snd ++ [today]).Sorted (· ≤ ·)) :
    UncompleteHabit (runOn db habitID ops) habitID today
      = UncompleteHabitAlways (runOn db habitID ops) habitID today ∧
    ((⟨habitID, today⟩ : HabitCompletion) ∈ (runOn db habitID ops).habit_completions →
      (∃ s, selectStreak (runOn db habitID ops) habitID = some s ∧
        s.CurrentStreak = s.LongestStreak ∧ s.CurrentStreak > 0) ∧
      ∃ s', selectStreak (UncompleteHabit (runOn db habitID ops) habitID today).2 habitID
          = some s' ∧
        s'.LongestStreak =
          (longestRun (history (UncompleteHabit (runOn db habitID ops) habitID today).2
            habitID) : Int)) := by
  have key : (⟨habitID, today⟩ : HabitCompletion) ∈ (runOn db habitID ops).habit_completions →
      ∃ s, selectStreak (runOn db habitID ops) habitID = some s ∧
        (completionDates (runOn db habitID ops) habitID).Nodup ∧
        s.CurrentStreak = s.LongestStreak ∧ s.CurrentStreak > 0 := by
    intro hmem
    obtain ⟨hc, hd⟩ := hnew
    have hJ : ∀ T, UpToDate db habitID T := fun T =>
      ⟨counted_of_newHabit db habitID ⟨hc, hd⟩, by rw [hd]; simp, by rw [hd]; simp⟩
    rcases hl : ops.map Prod.snd ++ [today] with _ | ⟨T, l⟩
    · simp at hl
    · have hcl : (T :: (ops.map Prod.snd ++ [today])).Sorted (· ≤ ·) := by
        rw [hl] at hclock ⊢
        exact List.sorted_cons.2 ⟨fun b hb => by
          rcases List.mem_cons.1 hb with rfl | hb
          · exact le_refl _
          · exact List.rel_of_sorted_cons hclock b hb, hclock⟩
      exact trigger_of_forward_clock habitID ops db T today (hJ T) hcl
        ((mem_completionDates _ habitID today).2 hmem)
  constructor
  · by_cases hmem : (⟨habitID, today⟩ : HabitCompletion) ∈
        (runOn db habitID ops).habit_completions
    · obtain ⟨s, hs, -, he, hp⟩ := key hmem
      have hc := (isHabitCompletedToday_iff (runOn db habitID ops) habitID today).2 hmem
      unfold UncompleteHabit UncompleteHabitAlways
      simp only [hc, Bool.not_true, Bool.false_eq_true, if_false]
      exact updateHabitStreakOnUncomplete_eq_always _ habitID s hs ⟨he, hp⟩
    · have hc := isHabitCompletedToday_false hmem
      unfold UncompleteHabit UncompleteHabitAlways
      simp [hc]
  · intro hmem
    obtain ⟨s, hs, hn, he, hp⟩ := key hmem
    refine ⟨⟨s, hs, he, hp⟩, ?_⟩
    obtain ⟨-, -, e3, e4⟩ := uncompleteHabit_spec _ habitID today s hs hmem
    refine ⟨_, e4, ?_⟩
    simp only [if_pos (And.intro he hp)]
    unfold history
    rw [e3, max_streak_of_nodup _ (hn.filter _)]

theorem skip_recomputation_sound_witness :
    NewHabit oneHabitDB 1 ∧
    List.Sorted (· ≤ ·)
      ([(Op.complete, 1), (Op.complete, 2), (Op.complete, 4)].map Prod.snd ++ [(4 : Int)]) ∧
    (⟨1, 4⟩ : HabitCompletion) ∈
      (runOn oneHabitDB 1 [(Op.complete, 1), (Op.complete, 2),
        (Op.complete, 4)]).habit_completions ∧
    UncompleteHabit
        (runOn oneHabitDB 1 [(Op.complete, 1), (Op.complete, 2), (Op.complete, 4)]) 1 4
      = UncompleteHabitAlways
        (runOn oneHabitDB 1 [(Op.complete, 1), (Op.complete, 2), (Op.complete, 4)]) 1 4 ∧
    ∃ s', selectStreak
        (UncompleteHabit
          (runOn oneHabitDB 1 [(Op.complete, 1), (Op.complete, 2), (Op.complete, 4)])
          1 4).2 1 = some s' ∧
      s'.LongestStreak =
        (longestRun (history
          (UncompleteHabit
            (runOn oneHabitDB 1 [(Op.complete, 1), (Op.complete, 2), (Op.complete, 4)])
            1 4).2 1) : Int) :=
  ⟨newHabit_oneHabitDB, by decide, by decide,
    (skip_recomputation_sound oneHabitDB 1 4
      [(Op.complete, 1), (Op.complete, 2), (Op.complete, 4)] newHabit_oneHabitDB
      (by decide)).1,
    ((skip_recomputation_sound oneHabitDB 1 4
      [(Op.complete, 1), (Op.complete, 2), (Op.complete, 4)] newHabit_oneHabitDB
      (by decide)).2 (by decide)).2⟩

end Habits
